import Mathlib

/-!
Verification of the RedTeam finding-reconciliation core.

A shallow embedding of the finding reconciliation engine (fingerprinting,
normalization, dedup against tracker state, rate-limited action planning)
and the hypothesis validation / evidence-gating pipeline, translated from
the TypeScript sources, together with proofs of the specified properties.

Conventions of the embedding:
* JavaScript strings are Lean `String`s; `toLowerCase`/`toUpperCase`/`trim`
  are modelled on the ASCII range (the only range the program exercises).
* `Map`s fetched from the tracker are association lists with `Nodup` keys,
  iterated in insertion order, exactly like a JS `Map`.
* `async` network functions are modelled as pure functions over the data
  they would fetch or produce; the tracker (issue numbering / URLs) is a
  parameter.
* Machine integers are `Nat` with explicit `% 2 ^ 32` where 32-bit
  wrap-around matters (the SHA-256 compression function).
-/

namespace RedTeam

-- ───────────────────────── JS string primitives ─────────────────────────

/-- ASCII lower-casing of one character, as `String.prototype.toLowerCase`
acts on the ASCII range. -/
def asciiLower (c : Char) : Char :=
  if 'A' ≤ c ∧ c ≤ 'Z' then Char.ofNat (c.toNat + 32) else c

/-- ASCII upper-casing of one character, as `String.prototype.toUpperCase`
acts on the ASCII range. -/
def asciiUpper (c : Char) : Char :=
  if 'a' ≤ c ∧ c ≤ 'z' then Char.ofNat (c.toNat - 32) else c

/-- The whitespace characters recognised by JS `trim` / `\s` (ASCII part). -/
def jsIsWs (c : Char) : Bool :=
  c = ' ' ∨ c = '\t' ∨ c = '\n' ∨ c = '\r' ∨ c = '\x0b' ∨ c = '\x0c'

/-- Model of `String.prototype.toLowerCase` (ASCII). -/
def jsToLowerCase (s : String) : String :=
  String.mk (s.data.map asciiLower)

/-- Model of `String.prototype.toUpperCase` (ASCII). -/
def jsToUpperCase (s : String) : String :=
  String.mk (s.data.map asciiUpper)

/-- Model of `String.prototype.trim`: strip leading and trailing whitespace. -/
def jsTrim (s : String) : String :=
  String.mk ((((s.data.dropWhile jsIsWs).reverse).dropWhile jsIsWs).reverse)

/-- The position scan behind `strContains`. -/
def strContainsAux (needle : List Char) : List Char → Bool
  | [] => needle.isPrefixOf []
  | c :: rest => needle.isPrefixOf (c :: rest) || strContainsAux needle rest

/-- Substring test (`String.prototype.includes`), via a character scan. -/
def strContains (hay needle : String) : Bool :=
  strContainsAux needle.data hay.data

-- ───────────────────────── SHA-256 (node:crypto) ─────────────────────────

/-- Truncate to a 32-bit word. -/
def w32 (n : Nat) : Nat := n % 4294967296

/-- Addition of 32-bit words with wrap-around. -/
def add32 (a b : Nat) : Nat := (a + b) % 4294967296

/-- Right rotation of a 32-bit word. -/
def rotr (x k : Nat) : Nat :=
  w32 (Nat.lor (Nat.shiftRight x k) (Nat.shiftLeft x (32 - k)))

/-- Complement of a 32-bit word. -/
def not32 (x : Nat) : Nat := Nat.xor x 4294967295

def bigSigma0 (x : Nat) : Nat := Nat.xor (Nat.xor (rotr x 2) (rotr x 13)) (rotr x 22)
def bigSigma1 (x : Nat) : Nat := Nat.xor (Nat.xor (rotr x 6) (rotr x 11)) (rotr x 25)
def smallSigma0 (x : Nat) : Nat := Nat.xor (Nat.xor (rotr x 7) (rotr x 18)) (Nat.shiftRight x 3)
def smallSigma1 (x : Nat) : Nat := Nat.xor (Nat.xor (rotr x 17) (rotr x 19)) (Nat.shiftRight x 10)

def chFn (x y z : Nat) : Nat := Nat.xor (Nat.land x y) (Nat.land (not32 x) z)
def majFn (x y z : Nat) : Nat :=
  Nat.xor (Nat.xor (Nat.land x y) (Nat.land x z)) (Nat.land y z)

/-- The 64 SHA-256 round constants. -/
def sha256K : List Nat :=
  [1116352408, 1899447441, 3049323471, 3921009573, 961987163,
   1508970993, 2453635748, 2870763221, 3624381080, 310598401,
   607225278, 1426881987, 1925078388, 2162078206, 2614888103,
   3248222580, 3835390401, 4022224774, 264347078, 604807628,
   770255983, 1249150122, 1555081692, 1996064986, 2554220882,
   2821834349, 2952996808, 3210313671, 3336571891, 3584528711,
   113926993, 338241895, 666307205, 773529912, 1294757372,
   1396182291, 1695183700, 1986661051, 2177026350, 2456956037,
   2730485921, 2820302411, 3259730800, 3345764771, 3516065817,
   3600352804, 4094571909, 275423344, 430227734, 506948616,
   659060556, 883997877, 958139571, 1322822218, 1537002063,
   1747873779, 1955562222, 2024104815, 2227730452, 2361852424,
   2428436474, 2756734187, 3204031479, 3329325298]

/-- Working state of the compression function. -/
structure ShaState where
  a : Nat
  b : Nat
  c : Nat
  d : Nat
  e : Nat
  f : Nat
  g : Nat
  h : Nat

/-- The SHA-256 initial hash value. -/
def shaInit : ShaState :=
  ⟨1779033703, 3144134277, 1013904242, 2773480762,
   1359893119, 2600822924, 528734635, 1541459225⟩

/-- One round of the compression function with schedule word `w` and
round constant `k`. -/
def shaRound (st : ShaState) (kw : Nat × Nat) : ShaState :=
  let t1 := add32 (add32 (add32 st.h (bigSigma1 st.e))
    (add32 (chFn st.e st.f st.g) kw.1)) kw.2
  let t2 := add32 (bigSigma0 st.a) (majFn st.a st.b st.c)
  ⟨add32 t1 t2, st.a, st.b, st.c, add32 st.d t1, st.e, st.f, st.g⟩

/-- SHA-256 padding: append `0x80`, zeros, and the 64-bit big-endian
bit length, reaching a multiple of 64 bytes. -/
def sha256pad (msg : List Nat) : List Nat :=
  let len := msg.length
  let bitLen := len * 8
  let zeros := (119 - len % 64) % 64
  msg ++ [0x80] ++ List.replicate zeros 0 ++
    [bitLen / 2 ^ 56 % 256, bitLen / 2 ^ 48 % 256, bitLen / 2 ^ 40 % 256,
     bitLen / 2 ^ 32 % 256, bitLen / 2 ^ 24 % 256, bitLen / 2 ^ 16 % 256,
     bitLen / 2 ^ 8 % 256, bitLen % 256]

/-- Split a byte list into chunks of 64 (fuel-driven; the fuel is an upper
bound on the number of chunks). -/
def chunk64 : Nat → List Nat → List (List Nat)
  | 0, _ => []
  | _, [] => []
  | fuel + 1, l => l.take 64 :: chunk64 fuel (l.drop 64)

/-- Assemble big-endian 32-bit words from bytes. -/
def bytesToWords : List Nat → List Nat
  | b0 :: b1 :: b2 :: b3 :: rest =>
      (((b0 * 256 + b1) * 256 + b2) * 256 + b3) :: bytesToWords rest
  | _ => []

/-- Extend a 16-word schedule to 64 words (48 extension steps). -/
def extendSchedule : Nat → List Nat → List Nat
  | 0, ws => ws
  | k + 1, ws =>
      let n := ws.length
      let word := add32 (add32 (smallSigma1 (ws.getD (n - 2) 0)) (ws.getD (n - 7) 0))
        (add32 (smallSigma0 (ws.getD (n - 15) 0)) (ws.getD (n - 16) 0))
      extendSchedule k (ws ++ [word])

/-- Process one 64-byte chunk, updating the running hash state. -/
def shaChunk (st : ShaState) (chunk : List Nat) : ShaState :=
  let ws := extendSchedule 48 (bytesToWords chunk)
  let t := (ws.zip sha256K).foldl shaRound st
  ⟨add32 st.a t.a, add32 st.b t.b, add32 st.c t.c, add32 st.d t.d,
   add32 st.e t.e, add32 st.f t.f, add32 st.g t.g, add32 st.h t.h⟩

/-- Big-endian bytes of a 32-bit word. -/
def wordBytes (w : Nat) : List Nat :=
  [w / 2 ^ 24 % 256, w / 2 ^ 16 % 256, w / 2 ^ 8 % 256, w % 256]

/-- SHA-256 digest of a byte sequence, as 32 bytes. -/
def sha256 (msg : List Nat) : List Nat :=
  let padded := sha256pad msg
  let st := (chunk64 (padded.length / 64 + 1) padded).foldl shaChunk shaInit
  wordBytes st.a ++ wordBytes st.b ++ wordBytes st.c ++ wordBytes st.d ++
    wordBytes st.e ++ wordBytes st.f ++ wordBytes st.g ++ wordBytes st.h

/-- The lowercase hexadecimal alphabet. -/
def hexAlphabet : List Char :=
  String.data "0123456789abcdef"

/-- One lowercase hex digit. -/
def hexDigit (n : Nat) : Char := hexAlphabet.getD n '0'

/-- Lowercase hex rendering of a byte list (`digest("hex")`). -/
def bytesToHex : List Nat → List Char
  | [] => []
  | b :: rest => hexDigit (b / 16 % 16) :: hexDigit (b % 16) :: bytesToHex rest

/-- A lowercase hexadecimal character. -/
def isHexLowerChar (c : Char) : Bool := c ∈ hexAlphabet

/-- UTF-8 bytes of a string, as `createHash(...).update(string)` encodes it. -/
def utf8Bytes (s : String) : List Nat :=
  s.toUTF8.toList.map UInt8.toNat

/-- The per-field normalization applied by `generateFingerprint`:
`f.toLowerCase().trim()`. -/
def normalizeField (s : String) : String := jsTrim (jsToLowerCase s)

/-- Translation of `generateFingerprint(...fields)` from `src/utils/fingerprint.ts`:
lower-case and trim each field, join with `"|"`, SHA-256, hex digest. -/
def generateFingerprint (fields : List String) : String :=
  let normalized := fields.map normalizeField
  String.mk (bytesToHex (sha256 (utf8Bytes (String.intercalate "|" normalized))))

/-- Translation of `generateId`: first 12 hex characters of the fingerprint. -/
def generateId (fingerprint : String) : String :=
  String.mk (fingerprint.data.take 12)

-- ───────────────────────── Data model (src/types.ts) ─────────────────────────

/-- The `Severity` union: the four severity levels. -/
inductive Severity where
  | critical
  | high
  | medium
  | low
deriving DecidableEq, Repr

/-- The string value of a severity (TS severities are string literals). -/
def Severity.toStr : Severity → String
  | .critical => "critical"
  | .high => "high"
  | .medium => "medium"
  | .low => "low"

/-- The `Location` shape: path plus optional 1-based line bounds. -/
structure Location where
  path : String
  startLine : Option Nat := none
  endLine : Option Nat := none
deriving DecidableEq, Repr

/-- The `RawFinding` shape: raw output of a scanner before normalization. `tool`,
`category` and `confidence` are string-literal unions in TS and are
embedded as strings. -/
structure RawFinding where
  rawId : String
  title : String
  severity : Severity
  confidence : String
  tool : String
  category : String
  location : Location
  evidence : String
  remediation : String
  references : List String
deriving DecidableEq, Repr

/-- The `Finding` shape: a raw finding plus derived `id` and `fingerprint`, with
evidence capped at 1024 characters. -/
structure Finding where
  id : String
  title : String
  severity : Severity
  confidence : String
  tool : String
  category : String
  location : Location
  evidence : String
  remediation : String
  references : List String
  fingerprint : String
deriving DecidableEq, Repr

/-- The `DedupResult` shape from `src/types.ts`. -/
structure DedupResult where
  newFindings : List Finding
  existingFindings : List (Finding × Nat)
  resolvedIssueNumbers : List Nat
  totalRaw : Nat
deriving DecidableEq, Repr

/-- The `action` field of an `IssueResult`. -/
inductive IssueAction where
  | created
  | updated
  | skipped
  | closed
deriving DecidableEq, Repr

/-- The `IssueResult` shape from `src/types.ts`. -/
structure IssueResult where
  issueNumber : Nat
  issueUrl : String
  action : IssueAction
  finding : Option Finding := none
deriving DecidableEq, Repr

/-- The `issues` block of `RedTeamConfig` (the fields the Action Planner
reads). -/
structure IssuesConfig where
  maxPerRun : Nat
  autoClose : Bool
deriving DecidableEq, Repr

/-- The `AttackHypothesis` shape from `src/llm_planner/models.ts`. `risk` is the
severity enum; `category` and `confidence` are free-form strings. -/
structure AttackHypothesis where
  id : String
  title : String
  category : String
  risk : Severity
  confidence : String
  rationale : String
  evidence_to_collect : String
  safe_test_plan : String
  likely_locations : List String
  references : List String
deriving DecidableEq, Repr

/-- The `HypothesisCheckResult` shape from `src/llm_planner/models.ts`. -/
structure HypothesisCheckResult where
  hypothesisId : String
  evidenceFound : Bool
  details : String
  locations : List String
deriving DecidableEq, Repr

-- ───────────────────────── Normalizer (src/normalizer.ts) ─────────────────────────

/-- The body of `normalize`'s `map` callback: attach fingerprint and id,
cap evidence at 1024 characters. -/
def normalizeOne (r : RawFinding) : Finding :=
  let fingerprint := generateFingerprint [r.tool, r.category, r.location.path, r.title]
  let id := generateId fingerprint
  { id := id
    title := r.title
    severity := r.severity
    confidence := r.confidence
    tool := r.tool
    category := r.category
    location := r.location
    evidence := String.mk (r.evidence.data.take 1024)
    remediation := r.remediation
    references := r.references
    fingerprint := fingerprint }

/-- Translation of `normalize(raw)`: map `normalizeOne` over the raw findings. -/
def normalize (raw : List RawFinding) : List Finding :=
  raw.map normalizeOne

-- ───────────────── Evidence gating (src/llm_planner/issues.ts) ─────────────────

/-- Translation of `mapCategory`: map hypothesis categories onto the finding category
union, defaulting to `"http"`. -/
def mapCategory (category : String) : String :=
  if category = "injection" then "secret"
  else if category = "auth-bypass" then "http"
  else if category = "info-disclosure" then "http"
  else if category = "misconfiguration" then "http"
  else if category = "secret-leak" then "secret"
  else if category = "dependency" then "dependency"
  else "http"

/-- Translation of `buildEvidenceBlock`: the evidence text of an LLM-derived finding. -/
def buildEvidenceBlock (hypothesis : AttackHypothesis)
    (checkResult : HypothesisCheckResult) : String :=
  String.intercalate "\n"
    ["**Hypothesis:** " ++ hypothesis.title,
     "**Category:** " ++ hypothesis.category,
     "**Confidence:** " ++ hypothesis.confidence,
     "",
     "**Why the code suggests this:**",
     hypothesis.rationale,
     "",
     "**Evidence collected:**",
     checkResult.details,
     "",
     "**Files inspected:** " ++
       (if checkResult.locations = [] then "N/A"
        else String.intercalate ", " checkResult.locations),
     "",
     "**Safe reproduction steps:**",
     hypothesis.safe_test_plan]

/-- Translation of `buildRemediationBlock`: remediation guidance for an LLM-derived
finding. -/
def buildRemediationBlock (hypothesis : AttackHypothesis) : String :=
  let refs := if hypothesis.references.length > 0 then
      "\n\nReferences: " ++ String.intercalate ", " hypothesis.references
    else ""
  "Review the identified code locations and apply appropriate security controls." ++ refs

/-- Translation of `hypothesisToFinding`: promote a hypothesis to a raw finding only when
the check found evidence — NO EVIDENCE → NO FINDING → NO ISSUE. -/
def hypothesisToFinding (hypothesis : AttackHypothesis)
    (checkResult : HypothesisCheckResult) (_demoLabel : Option String) :
    Option RawFinding :=
  if checkResult.evidenceFound = false then
    none
  else
    let locationPath :=
      checkResult.locations.headD (hypothesis.likely_locations.headD "unknown")
    some
      { rawId := "llm-planner-" ++ hypothesis.id
        title := hypothesis.title
        severity := hypothesis.risk
        confidence := hypothesis.confidence
        tool := "llm-planner"
        category := mapCategory hypothesis.category
        location := { path := locationPath }
        evidence := buildEvidenceBlock hypothesis checkResult
        remediation := buildRemediationBlock hypothesis
        references := hypothesis.references }

-- ───────────────────────── Dedup engine (src/dedup.ts) ─────────────────────────

/-- Model of `Map.prototype.get` on an insertion-ordered association list: the value
of the first (and, with `Nodup` keys, only) binding. -/
def mapGet (m : List (String × Nat)) (k : String) : Option Nat :=
  (m.find? (fun p => p.1 = k)).map Prod.snd

/-- The partition loop of `deduplicate`: each finding goes to
`existingFindings` when its fingerprint is in the tracker map, else to
`newFindings`; both lists keep input order. -/
def partitionFindings (issues : List (String × Nat)) :
    List Finding → List Finding × List (Finding × Nat)
  | [] => ([], [])
  | f :: rest =>
      let (ns, es) := partitionFindings issues rest
      match mapGet issues f.fingerprint with
      | some n => (ns, (f, n) :: es)
      | none => (f :: ns, es)

/-- The resolved-issues loop of `deduplicate`: issue numbers of tracker
entries whose fingerprint is absent from the current scan. -/
def resolvedLoop (current : List String) : List (String × Nat) → List Nat
  | [] => []
  | (fp, n) :: rest =>
      if fp ∈ current then resolvedLoop current rest
      else n :: resolvedLoop current rest

/-- Translation of `deduplicate(findings, config)`: partition current findings against the
fingerprint → issue-number map fetched from the tracker. The fetched map is
a parameter here (the network fetch is outside the embedding). -/
def deduplicate (findings : List Finding) (existingIssues : List (String × Nat)) :
    DedupResult :=
  let currentFingerprints := findings.map (fun f => f.fingerprint)
  let pe := partitionFindings existingIssues findings
  { newFindings := pe.1
    existingFindings := pe.2
    resolvedIssueNumbers := resolvedLoop currentFingerprints existingIssues
    totalRaw := findings.length }

-- ───────────────────── Action planner (src/github/issues.ts) ─────────────────────

/-- The `SEVERITY_ORDER` table: critical first. -/
def severityOrder : Severity → Nat
  | .critical => 0
  | .high => 1
  | .medium => 2
  | .low => 3

/-- Stable insertion of a finding into a list sorted ascending by
`severityOrder`: the inserted finding precedes later-input findings of
equal severity, matching the stable `Array.prototype.sort`. -/
def insertBySeverity (f : Finding) : List Finding → List Finding
  | [] => [f]
  | g :: rest =>
      if severityOrder g.severity < severityOrder f.severity then
        g :: insertBySeverity f rest
      else f :: g :: rest

/-- Translation of `sortBySeverity`: stable sort by severity, critical
first, ties broken by input order (ES2019 `sort` is stable). -/
def sortBySeverity (findings : List Finding) : List Finding :=
  findings.foldr insertBySeverity []

/-- Canonical issue URL, as built for skip and close results. -/
def issueUrlFor (owner repo : String) (n : Nat) : String :=
  "https://github.com/" ++ owner ++ "/" ++ repo ++ "/issues/" ++ toString n

/-- Model of `createIssueForFinding` restricted to its result value: the
tracker (issue numbering and URL assignment) is a parameter standing for
the `octokit.issues.create` response. -/
def mkCreatedResult (tracker : Finding → Nat × String) (f : Finding) : IssueResult :=
  { issueNumber := (tracker f).1
    issueUrl := (tracker f).2
    action := .created
    finding := some f }

/-- Model of `closeResolvedIssue` restricted to its result value. -/
def mkClosedResult (owner repo : String) (n : Nat) : IssueResult :=
  { issueNumber := n
    issueUrl := issueUrlFor owner repo n
    action := .closed
    finding := none }

/-- The create loop of `processIssues`: walk the sorted new findings,
breaking once `created` reaches `maxPerRun` (the remaining budget is the
first argument). -/
def createLoop (tracker : Finding → Nat × String) :
    Nat → List Finding → List IssueResult
  | _, [] => []
  | 0, _ :: _ => []
  | budget + 1, f :: rest => mkCreatedResult tracker f :: createLoop tracker budget rest

/-- The skipped result built by `processIssues` for an existing finding. -/
def mkSkippedResult (owner repo : String) (p : Finding × Nat) : IssueResult :=
  { issueNumber := p.2
    issueUrl := issueUrlFor owner repo p.2
    action := IssueAction.skipped
    finding := some p.1 }

/-- Translation of `processIssues`: create issues for new findings up to
`maxPerRun` in severity order, record a skip for every existing finding,
and close resolved issues when auto-close is on. Creates and closes are
modelled on their success path (a failed call only removes its own result
and consumes no budget for creates that did not happen). -/
def processIssues (tracker : Finding → Nat × String) (dedupResult : DedupResult)
    (cfg : IssuesConfig) (owner repo : String) : List IssueResult :=
  let sortedNew := sortBySeverity dedupResult.newFindings
  let createdResults := createLoop tracker cfg.maxPerRun sortedNew
  let skippedResults := dedupResult.existingFindings.map (mkSkippedResult owner repo)
  let closedResults :=
    if cfg.autoClose then dedupResult.resolvedIssueNumbers.map (mkClosedResult owner repo)
    else []
  createdResults ++ skippedResults ++ closedResults

-- ───────────────────────── Personas (src/persona.ts) ─────────────────────────

/-- The `Persona` interface. The two header members take no arguments in
the source and are embedded as plain strings. -/
structure Persona where
  issueTitle : Finding → String
  openingParagraph : Finding → String
  evidenceHeader : String
  remediationHeader : String
  funFact : Finding → String
  closingLine : Finding → String

/-- The `PersonaName` union. -/
inductive PersonaName where
  | default
  | chuck_norris
deriving DecidableEq, Repr

/-- Translation of `defaultPersona`. -/
def defaultPersona : Persona :=
  { issueTitle := fun finding =>
      "[" ++ jsToUpperCase finding.severity.toStr ++ "] " ++ finding.title
    openingParagraph := fun _ => ""
    evidenceHeader := "### Evidence"
    remediationHeader := "### Remediation"
    funFact := fun _ => ""
    closingLine := fun _ => "" }

/-- The `CHUCK_OPENINGS` table. -/
def chuckOpenings : Severity → List String
  | .critical =>
      ["This vulnerability was found cowering in the codebase. It never had a chance.",
       "Chuck Norris mode does not negotiate with insecure code. This one is critical.",
       "Chuck Norris once roundhouse-kicked a vulnerability so hard it patched itself. This one wasn\x27t so lucky.",
       "This critical finding tried to run. Chuck Norris doesn\x27t chase — the code just surrenders.",
       "When Chuck Norris scans for critical vulnerabilities, they turn themselves in."]
  | .high =>
      ["A serious vulnerability was discovered. It immediately regretted existing.",
       "This finding is significant. Chuck Norris mode has zero tolerance for it.",
       "Chuck Norris counted to infinity — twice — before this vulnerability even loaded.",
       "This high-severity bug thought it was tough. Then it met Chuck Norris mode.",
       "Chuck Norris doesn\x27t read stack traces. Stack traces read themselves to him."]
  | .medium =>
      ["This vulnerability thought it could hide. It was wrong.",
       "A moderate issue was found. Chuck Norris mode does not do \"moderate\" — fix it.",
       "Chuck Norris doesn\x27t triage medium findings. He promotes them to \"fix immediately.\"",
       "Medium severity? Chuck Norris\x27s beard has already written the patch.",
       "This bug was medium. Chuck Norris rounded it up to \"unacceptable.\""]
  | .low =>
      ["Even low-severity findings get noticed. Nothing escapes a Chuck Norris scan.",
       "A minor issue was detected. Chuck Norris mode rounds low up to \"handle it now.\"",
       "Chuck Norris doesn\x27t ignore low findings. He stares at them until they fix themselves.",
       "Low severity is just Chuck Norris giving you a head start.",
       "This bug thought being low severity would save it. Chuck Norris disagrees."]

/-- The `CHUCK_TITLE_SUFFIXES` table. -/
def chuckTitleSuffixes : List String :=
  ["Chuck Norris Was Here",
   "Detected by Roundhouse Scan",
   "You Can\x27t Hide from Chuck",
   "Fear the Scan",
   "Chuck Norris Approved Fix Required"]

/-- The `CHUCK_CLOSINGS` table. -/
def chuckClosings : List String :=
  ["🥋 *Fix this. Re-run the scan. Chuck Norris will be watching.*",
   "🥋 *Chuck Norris doesn\x27t file bugs — he files warnings. You\x27ve been warned.*",
   "🥋 *The code has been judged. Chuck Norris expects a fix by yesterday.*",
   "🥋 *Remember: Chuck Norris can unit-test an entire codebase with a single glare.*",
   "🥋 *Patch it before Chuck Norris patches you.*"]

/-- The `CHUCK_FUN_FACTS` table. -/
def chuckFunFacts : List String :=
  ["Chuck Norris can delete the root node of a binary tree in O(0) time.",
   "Chuck Norris\x27s keyboard has no Ctrl key. Chuck Norris is always in control.",
   "Chuck Norris can compile syntax errors.",
   "When Chuck Norris pushes code, the repo pulls itself together.",
   "Chuck Norris doesn\x27t use version control. The code is too afraid to change without his permission.",
   "Chuck Norris doesn\x27t deploy to production. Production deploys to Chuck Norris.",
   "Chuck Norris\x27s code doesn\x27t have bugs. Bugs have Chuck Norris, and they regret it.",
   "Chuck Norris can access private methods. They volunteer their values.",
   "Chuck Norris\x27s pull requests merge themselves out of respect.",
   "Chuck Norris once mass-assigned every variable in a codebase. They all said thank you."]

/-- The value of one hexadecimal digit, upper or lower case. -/
def hexDigitVal (c : Char) : Option Nat :=
  if '0' ≤ c ∧ c ≤ '9' then some (c.toNat - '0'.toNat)
  else if 'a' ≤ c ∧ c ≤ 'f' then some (c.toNat - 'a'.toNat + 10)
  else if 'A' ≤ c ∧ c ≤ 'F' then some (c.toNat - 'A'.toNat + 10)
  else none

/-- The leading-hex-digit accumulator behind `parseIntHex16`. -/
def parseIntHexAux : List Char → Nat → Nat
  | [], acc => acc
  | c :: rest, acc =>
      match hexDigitVal c with
      | some v => parseIntHexAux rest (acc * 16 + v)
      | none => acc

/-- Model of `parseInt(s, 16) || 0` on the hex-digit slices this program
feeds it: the value of the maximal leading run of hex digits, `0` when the
run is empty (`NaN || 0`). -/
def parseIntHex16 (s : String) : Nat :=
  parseIntHexAux s.data 0

/-- Model of `String.prototype.slice(a, b)` for `a ≤ b` on ASCII data. -/
def strSlice (s : String) (a b : Nat) : String :=
  String.mk ((s.data.drop a).take (b - a))

/-- Translation of `pickIndex`: a deterministic index derived from eight
hex characters of the fingerprint. -/
def pickIndex (fingerprint : String) (offset count : Nat) : Nat :=
  parseIntHex16 (strSlice fingerprint offset (offset + 8)) % count

/-- Translation of `chuckNorrisPersona`. -/
def chuckNorrisPersona : Persona :=
  { issueTitle := fun finding =>
      let sev := jsToUpperCase finding.severity.toStr
      let suffix := chuckTitleSuffixes.getD
        (pickIndex finding.fingerprint 0 chuckTitleSuffixes.length) ""
      "🥋 [" ++ sev ++ "] " ++ finding.title ++ " — " ++ suffix
    openingParagraph := fun finding =>
      let options := chuckOpenings finding.severity
      let index := pickIndex finding.fingerprint 0 options.length
      "> " ++ options.getD index "" ++ "\n"
    evidenceHeader := "### 🔍 Proof (Because Doubt Is Not an Option)"
    remediationHeader := "### 💪 How to Fix This So It Never Happens Again"
    funFact := fun finding =>
      let fact := chuckFunFacts.getD
        (pickIndex finding.fingerprint 8 chuckFunFacts.length) ""
      "\n> 💡 **Chuck Norris Fun Fact:** " ++ fact ++ "\n"
    closingLine := fun finding =>
      let closing := chuckClosings.getD
        (pickIndex finding.fingerprint 16 chuckClosings.length) ""
      "\n" ++ closing }

/-- Translation of `getPersona`: registry lookup (total on `PersonaName`). -/
def getPersona : PersonaName → Persona
  | .default => defaultPersona
  | .chuck_norris => chuckNorrisPersona

-- ──────────────── Issue bodies and the fingerprint marker ────────────────

/-- The `FINGERPRINT_PREFIX` constant (the marker's opening literal). -/
def fingerprintMarkerHead : String := "<!-- redteam-fingerprint:"

/-- The `FINGERPRINT_SUFFIX` constant (the marker's closing literal). -/
def fingerprintMarkerTail : String := " -->"

/-- Translation of `maskSecret`: all asterisks when at most 8 characters,
otherwise first 4 and last 4 kept with asterisks between. -/
def maskSecret (evidence : String) : String :=
  if evidence.length ≤ 8 then String.mk (List.replicate evidence.length '*')
  else String.mk (evidence.data.take 4) ++
    String.mk (List.replicate (evidence.length - 8) '*') ++
    String.mk (evidence.data.drop (evidence.length - 4))

/-- The issue-body template of `buildIssueBody` before the evidence hole:
the fingerprint marker line, opening block, title, metadata table and
evidence header. A `startLine` of `0` is falsy in JS, so only a positive
`startLine` adds the line suffix. -/
def bodyPreamble (finding : Finding) (tone : Persona) : String :=
  let locationStr :=
    match finding.location.startLine with
    | some (n + 1) => "`" ++ finding.location.path ++ ":" ++ toString (n + 1) ++ "`"
    | _ => "`" ++ finding.location.path ++ "`"
  let opening := tone.openingParagraph finding
  let openingBlock := if opening ≠ "" then "\n" ++ opening ++ "\n" else ""
  "\n" ++ openingBlock ++ "\n## " ++ finding.title ++
    "\n\n| Field | Value |\n|-------|-------|\n| **Severity** | `" ++
    finding.severity.toStr ++ "` |\n| **Confidence** | `" ++ finding.confidence ++
    "` |\n| **Tool** | `" ++ finding.tool ++ "` |\n| **Category** | `" ++
    finding.category ++ "` |\n| **Location** | " ++ locationStr ++ " |\n\n" ++
    tone.evidenceHeader ++ "\n\n```\n"

/-- The marker-led opening of the issue body: the fingerprint marker
followed by the preamble (grouped to the right so the marker structure is
explicit). -/
def bodyBeforeEvidence (finding : Finding) (tone : Persona) : String :=
  fingerprintMarkerHead ++
    (finding.fingerprint ++ (fingerprintMarkerTail ++ bodyPreamble finding tone))

/-- The issue-body template after the evidence hole: remediation,
references, fun fact, footer and closing line. -/
def bodyAfterEvidence (finding : Finding) (tone : Persona) : String :=
  let refs :=
    if finding.references.length > 0 then
      String.intercalate "\n" (finding.references.map (fun r => "- " ++ r))
    else "_None_"
  let funFact := tone.funFact finding
  let funFactBlock := if funFact ≠ "" then "\n" ++ funFact else ""
  let closing := tone.closingLine finding
  "\n```\n\n" ++ tone.remediationHeader ++ "\n\n" ++ finding.remediation ++
    "\n\n### References\n\n" ++ refs ++ "\n" ++ funFactBlock ++
    "\n---\n*Filed by RedTeam Agent • Finding ID: `" ++ finding.id ++
    "` • Fingerprint: `" ++ String.mk (finding.fingerprint.data.take 12) ++
    "`*\n" ++ closing ++ "\n"

/-- Translation of `buildIssueBody`: the issue-body template, written as
the part before the evidence, the (masked, for secret findings) evidence,
and the part after it. Secret evidence is masked to avoid leaking
sensitive data; every other category embeds its evidence verbatim. -/
def buildIssueBody (finding : Finding) (persona : Option Persona) : String :=
  let tone := persona.getD (getPersona PersonaName.default)
  let safeEvidence :=
    if finding.category = "secret" then maskSecret finding.evidence
    else finding.evidence
  bodyBeforeEvidence finding tone ++ (safeEvidence ++ bodyAfterEvidence finding tone)

/-- Literal matching: strip an exact character sequence from the front. -/
def stripLiteral : List Char → List Char → Option (List Char)
  | [], rest => some rest
  | _ :: _, [] => none
  | c :: cs, d :: ds => if c = d then stripLiteral cs ds else none

/-- One attempt of `FINGERPRINT_REGEX` at a fixed start position: the
literal head, then exactly 64 characters of `[a-f0-9]`, then the literal
tail; the capture is the 64 hex characters. -/
def markerCaptureAt (cs : List Char) : Option String :=
  match stripLiteral fingerprintMarkerHead.data cs with
  | none => none
  | some rest =>
      let cap := rest.take 64
      if cap.length == 64 && cap.all isHexLowerChar &&
          fingerprintMarkerTail.data.isPrefixOf (rest.drop 64) then
        some (String.mk cap)
      else none

/-- The position scan behind `execFingerprintRegex`. -/
def markerScan : List Char → Option String
  | [] => none
  | c :: rest =>
      match markerCaptureAt (c :: rest) with
      | some capture => some capture
      | none => markerScan rest

/-- Model of `FINGERPRINT_REGEX.exec(body)` restricted to its capture
group: the leftmost match of
`<!-- redteam-fingerprint:([a-f0-9]\x7b64\x7d) -->`, or `none`. -/
def execFingerprintRegex (body : String) : Option String :=
  markerScan body.data

-- ───────────────── Guardrails (src/llm_planner/guardrails.ts) ─────────────────

/-- The `DEFAULT_TARGET_ALLOWLIST` constant — localhost only. -/
def DEFAULT_TARGET_ALLOWLIST : List String :=
  ["localhost", "127.0.0.1", "::1"]

/-- Case-insensitive literal matching (the `i` flag): strip a lowercase
character sequence from the front, folding case. -/
def stripLiteralCI : List Char → List Char → Option (List Char)
  | [], rest => some rest
  | _ :: _, [] => none
  | c :: cs, d :: ds => if c = asciiLower d then stripLiteralCI cs ds else none

/-- One attempt of `/https?:\x2f\x2f([^\x2f\s]+)/gi` at a fixed start
position: the scheme literal (case-folded, `s` optional and greedy), then
the capture — a maximal non-empty run of characters that are neither `/`
nor whitespace. Returns the capture and the remaining input after it. -/
def urlCaptureAt (cs : List Char) : Option (String × List Char) :=
  match stripLiteralCI "http".data cs with
  | none => none
  | some rest1 =>
      let afterScheme :=
        match stripLiteralCI "s://".data rest1 with
        | some r => some r
        | none => stripLiteralCI "://".data rest1
      match afterScheme with
      | none => none
      | some rest2 =>
          let cap := rest2.takeWhile (fun c => c ≠ '/' && !(jsIsWs c))
          if cap = [] then none
          else some (String.mk cap, rest2.drop cap.length)

/-- The `exec` loop over a `g`-flagged regex: successive non-overlapping
captures, scanning left to right. The fuel is an upper bound on the scan
length. -/
def extractUrlCaptures : Nat → List Char → List String
  | 0, _ => []
  | _, [] => []
  | fuel + 1, c :: rest =>
      match urlCaptureAt (c :: rest) with
      | some (cap, after) => cap :: extractUrlCaptures fuel after
      | none => extractUrlCaptures fuel rest

/-- All captures of the URL regex in a string. -/
def urlCapturesOf (s : String) : List String :=
  extractUrlCaptures (s.data.length + 1) s.data

/-- The hostname the guardrail derives from a capture:
`match[1].split(":")[0].toLowerCase()` — the text before the first colon
(the whole capture when there is none), lower-cased. -/
def hostnameOfCapture (cap : String) : String :=
  jsToLowerCase (String.mk (cap.data.takeWhile (fun c => c ≠ ':')))

/-- Translation of `filterSafeHypotheses`: keep a hypothesis only when
every HTTP(S) reference in its `safe_test_plan` has a hostname equal to
some allow-list entry (entry lower-cased and trimmed). -/
def filterSafeHypotheses (hypotheses : List AttackHypothesis)
    (allowlist : List String) : List AttackHypothesis :=
  hypotheses.filter (fun h =>
    (urlCapturesOf h.safe_test_plan).all (fun cap =>
      allowlist.any (fun a => hostnameOfCapture cap = jsTrim (jsToLowerCase a))))

-- ─────────── Regular expressions for the static checks (JS `gi` flags) ───────────

/-- An item of a character class: a single character or a range. -/
inductive ClsItem where
  | single (c : Char)
  | range (lo hi : Char)
deriving DecidableEq, Repr

/-- Syntax of the regexes appearing in `STATIC_CHECK_PATTERNS`. -/
inductive RE where
  | eps
  | lit (c : Char)
  | cls (neg : Bool) (items : List ClsItem)
  | anyc
  | cat (r s : RE)
  | alt (r s : RE)
  | star (r : RE)
  | plus (r : RE)
  | opt (r : RE)
  | wordB
deriving DecidableEq, Repr

/-- Case-folded character equality (the `i` flag). -/
def foldEqCI (a b : Char) : Bool :=
  asciiLower a = asciiLower b

/-- Raw membership of a character in a class item. -/
def clsItemMatch (item : ClsItem) (c : Char) : Bool :=
  match item with
  | .single x => x = c
  | .range lo hi => lo ≤ c ∧ c ≤ hi

/-- Membership in a class body, up to case folding. -/
def clsMatchCI (items : List ClsItem) (c : Char) : Bool :=
  items.any (fun it => clsItemMatch it c) ||
    items.any (fun it => clsItemMatch it (asciiLower c)) ||
    items.any (fun it => clsItemMatch it (asciiUpper c))

/-- Membership in a (possibly negated) character class. -/
def clsMatch (neg : Bool) (items : List ClsItem) (c : Char) : Bool :=
  if neg then !(clsMatchCI items c) else clsMatchCI items c

/-- Line terminators, which `.` does not match. -/
def isLineTerm (c : Char) : Bool :=
  c = '\n' ∨ c = '\r'

/-- Word characters for `\b` and `\w`. -/
def isWordChar (c : Char) : Bool :=
  ('a' ≤ c ∧ c ≤ 'z') ∨ ('A' ≤ c ∧ c ≤ 'Z') ∨ ('0' ≤ c ∧ c ≤ '9') ∨ c = '_'

/-- Backtracking matcher in continuation style: `reMatch fuel s r i k`
tries the alternatives of `r` at position `i` greedily and left-first
(JS semantics) and returns the first end position accepted by `k`. The
fuel bounds the nesting depth of one backtracking path. -/
def reMatch (fuel : Nat) (s : Array Char) (r : RE) (i : Nat)
    (k : Nat → Option Nat) : Option Nat :=
  match fuel with
  | 0 => none
  | fuel + 1 =>
    match r with
    | .eps => k i
    | .lit c =>
        if h : i < s.size then
          (if foldEqCI c s[i] then k (i + 1) else none)
        else none
    | .cls neg items =>
        if h : i < s.size then
          (if clsMatch neg items s[i] then k (i + 1) else none)
        else none
    | .anyc =>
        if h : i < s.size then
          (if isLineTerm s[i] then none else k (i + 1))
        else none
    | .cat a b => reMatch fuel s a i (fun j => reMatch fuel s b j k)
    | .alt a b =>
        match reMatch fuel s a i k with
        | some e => some e
        | none => reMatch fuel s b i k
    | .star a =>
        match reMatch fuel s a i
            (fun j => if j = i then none else reMatch fuel s (.star a) j k) with
        | some e => some e
        | none => k i
    | .plus a => reMatch fuel s (.cat a (.star a)) i k
    | .opt a =>
        match reMatch fuel s a i k with
        | some e => some e
        | none => k i
    | .wordB =>
        let left :=
          if h : i - 1 < s.size then 0 < i && isWordChar (s.get ⟨i - 1, h⟩)
          else false
        let right := if h : i < s.size then isWordChar s[i] else false
        if left ≠ right then k i else none

/-- Structural size of a regex, used to bound backtracking depth. -/
def reSize : RE → Nat
  | .eps => 1
  | .lit _ => 1
  | .cls _ _ => 1
  | .anyc => 1
  | .cat a b => reSize a + reSize b + 1
  | .alt a b => reSize a + reSize b + 1
  | .star a => reSize a + 1
  | .plus a => reSize a + 2
  | .opt a => reSize a + 1
  | .wordB => 1

/-- Fuel sufficient for any backtracking path of `r` over `s`. -/
def reFuel (s : Array Char) (r : RE) : Nat :=
  (s.size + 2) * (reSize r + 2) + 8

/-- End position of the leftmost-first match of `r` starting exactly at
`i`, if any. -/
def reMatchEndAt (s : Array Char) (r : RE) (i : Nat) : Option Nat :=
  reMatch (reFuel s r) s r i some

/-- The scan of `String.prototype.match` with the `g` flag: count
successive non-overlapping matches left to right. -/
def countMatchesFrom (s : Array Char) (r : RE) : Nat → Nat → Nat
  | 0, _ => 0
  | fuel + 1, i =>
      if i > s.size then 0
      else
        match reMatchEndAt s r i with
        | some e => 1 + countMatchesFrom s r fuel (if e = i then i + 1 else e)
        | none => if i = s.size then 0 else countMatchesFrom s r fuel (i + 1)

/-- Number of matches of `content.match(pattern)` (with `g`: all
non-overlapping matches; `null` corresponds to a count of zero). -/
def matchCount (content : String) (r : RE) : Nat :=
  let s := content.data.toArray
  countMatchesFrom s r (s.size + 1) 0

-- ───── The STATIC_CHECK_PATTERNS table (src/llm_planner/static_checks.ts) ─────

/-- A literal character sequence. -/
def rlit (s : String) : RE :=
  s.data.foldr (fun c r => RE.cat (.lit c) r) .eps

/-- Sequential composition of a list of regexes. -/
def rcat (xs : List RE) : RE :=
  xs.foldr RE.cat .eps

/-- Left-first alternation of a head and further alternatives. -/
def ralt (x : RE) (xs : List RE) : RE :=
  xs.foldl RE.alt x

/-- The apostrophe character (U+0027). -/
def sqChar : Char := Char.ofNat 39

/-- The closing-brace character (U+007D). -/
def rbChar : Char := Char.ofNat 125

/-- The backtick character (U+0060). -/
def backtickChar : Char := Char.ofNat 96

/-- The class `\s`. -/
def wsCls : RE :=
  .cls false [.single ' ', .single '\t', .single '\n', .single '\r',
    .single '\x0b', .single '\x0c']

/-- Shorthand for `\s*`. -/
def rws0 : RE := .star wsCls

/-- Shorthand for `\s+`. -/
def rws1 : RE := .plus wsCls

/-- The quote class appearing as both forms of `[quote dquote]`. -/
def quoteCls : RE := .cls false [.single sqChar, .single '"']

/-- The class `[a-zA-Z0-9]`. -/
def alnumCls : RE := .cls false [.range 'a' 'z', .range 'A' 'Z', .range '0' '9']

/-- The class `\w`. -/
def wordCls : RE :=
  .cls false [.range 'a' 'z', .range 'A' 'Z', .range '0' '9', .single '_']

/-- A bounded-below repetition `r` at least `n` times (greedy), the
expansion of the quantifier written with a lower bound. -/
def rrepAtLeast (n : Nat) (r : RE) : RE :=
  rcat (List.replicate n r ++ [RE.star r])

/-- The four SQL keywords alternation of the injection pattern. -/
def sqlKeywordAlt : RE :=
  ralt (rlit "SELECT") [rlit "INSERT", rlit "UPDATE", rlit "DELETE"]

/-- Translation of the `STATIC_CHECK_PATTERNS` table, category by
category, pattern by pattern, each regex rendered as an `RE` value. -/
def staticCheckPatterns : List (String × List (String × RE)) :=
  [("injection",
    [("string-concatenated-query",
      .alt
        (rcat [quoteCls, .star .anyc, sqlKeywordAlt, .wordB, .star .anyc,
          quoteCls, rws0, .lit '+'])
        (rcat [.lit '+', rws0, quoteCls, .star .anyc, sqlKeywordAlt])),
     ("unsanitized-input",
      rcat [rlit "req.", ralt (rlit "body") [rlit "query", rlit "params"],
        rws0, .lit '[']),
     ("eval-usage",
      rcat [.wordB, rlit "eval", rws0, .lit '('])]),
   ("auth-bypass",
    [("missing-auth-middleware",
      rcat [rlit "app.",
        ralt (rlit "get") [rlit "post", rlit "put", rlit "delete", rlit "patch"],
        rws0, .lit '(', .plus (.cls true [.single ',']), .lit ',', rws0,
        .opt (rcat [rlit "async", rws1]), .lit '(']),
     ("jwt-none-algorithm",
      .alt (rcat [rlit "algorithm", .star .anyc, rlit "none"])
        (rcat [rlit "none", .star .anyc, rlit "algorithm"])),
     ("hardcoded-token-check",
      rcat [rlit "==", .opt (.lit '='), rws0, quoteCls,
        rrepAtLeast 20 alnumCls, quoteCls])]),
   ("info-disclosure",
    [("stack-trace-exposure",
      rcat [ralt (rlit "err") [rlit "error"], .lit '.',
        ralt (rlit "stack") [rlit "message"], rws0,
        .cls false [.single ',', .single ')', .single rbChar, .single ']']]),
     ("verbose-error",
      rcat [rlit "res.", ralt (rlit "json") [rlit "send"], rws0, .lit '(',
        rws0, ralt (rlit "err") [rlit "error"]]),
     ("console-log-sensitive",
      rcat [rlit "console.log", rws0, .lit '(', .star .anyc,
        ralt (rlit "password") [rlit "secret", rlit "token", rlit "key",
          rlit "credential"]])]),
   ("misconfiguration",
    [("cors-wildcard",
      ralt (rcat [rlit "cors", rws0, .lit '(', rws0, .lit ')'])
        [rcat [.lit '*', .star .anyc, rlit "origin"],
         rcat [rlit "origin", .star .anyc, .lit '*']]),
     ("debug-enabled",
      .alt
        (rcat [rlit "debug", rws0, .cls false [.single ':', .single '='],
          rws0, rlit "true"])
        (rcat [rlit "NODE_ENV", .star .anyc, rlit "development"])),
     ("missing-helmet",
      rcat [rlit "app.use", rws0, .lit '(', rws0,
        ralt (rlit "express.static") [rlit "morgan", rlit "bodyParser"]])]),
   ("secret-leak",
    [("hardcoded-credential",
      rcat [ralt (rlit "password") [rlit "secret", rlit "api_key",
          rlit "apikey", rlit "token"],
        rws0, .cls false [.single ':', .single '='], rws0, quoteCls,
        rrepAtLeast 8 (.cls true [.single sqChar, .single '"']), quoteCls]),
     ("dotenv-in-source",
      .alt (rcat [.lit '.', rlit "env", .star .anyc, rlit "committed"])
        (rcat [rlit "process.env.", .plus wordCls, rws0, rlit "||", rws0,
          quoteCls, rrepAtLeast 8 (.cls true [.single sqChar, .single '"']),
          quoteCls]))]),
   ("dependency",
    [("outdated-package",
      rcat [.lit '"', rlit "version", .lit '"', rws0, .lit ':', rws0,
        .lit '"', .cls false [.single '0', .single '1'], .lit '.']),
     ("no-lockfile-integrity", rlit "integrity")])]

/-- Lookup in the pattern table: `STATIC_CHECK_PATTERNS[category] ?? []`. -/
def patternsFor (category : String) : List (String × RE) :=
  ((staticCheckPatterns.find? (fun p => p.1 = category)).map Prod.snd).getD []

-- ─────────── Evidence checker (src/llm_planner/static_checks.ts) ───────────

/-- The scan behind `extractCodeRefs`: collect the contents of
backtick-delimited, non-empty code spans, left to right, non-overlapping
(the matches of a backtick-any-backtick pattern with the `g` flag). The
fuel is an upper bound on the scan length. -/
def extractCodeRefsAux : Nat → List Char → List String
  | 0, _ => []
  | _, [] => []
  | fuel + 1, c :: rest =>
      if c = backtickChar then
        let inner := rest.takeWhile (fun d => d ≠ backtickChar)
        match rest.drop inner.length with
        | [] => []
        | _ :: afterRest =>
            if inner = [] then extractCodeRefsAux fuel rest
            else String.mk inner :: extractCodeRefsAux fuel afterRest
      else extractCodeRefsAux fuel rest

/-- Translation of `extractKeywords`: backtick-quoted fragments of the
rationale, of length at least 3. -/
def extractKeywords (rationale : String) : List String :=
  (extractCodeRefsAux (rationale.data.length + 1) rationale.data).filter
    (fun r => r.length ≥ 3)

/-- The detail line recorded for a matching pattern. -/
def patternDetailLine (name : String) (n : Nat) (filePath : String) : String :=
  "Pattern \x27" ++ name ++ "\x27 matched " ++ toString n ++ " time(s) in " ++ filePath

/-- The category-pattern loop of `runStaticChecks`: every matching pattern
appends the file to the locations and a detail line to the evidence. The
accumulator is (locations, evidenceDetails). -/
def runPatternChecks (content filePath : String) :
    List (String × RE) → (List String × List String) → List String × List String
  | [], acc => acc
  | p :: ps, acc =>
      let n := matchCount content p.2
      if n > 0 then
        runPatternChecks content filePath ps
          (acc.1 ++ [filePath], acc.2 ++ [patternDetailLine p.1 n filePath])
      else runPatternChecks content filePath ps acc

/-- The keyword loop of `runStaticChecks`: a rationale fragment found in
the file content (case-insensitively) adds the file to the locations —
and touches nothing else. -/
def runKeywordChecks (content filePath : String) :
    List String → List String → List String
  | [], locs => locs
  | kw :: kws, locs =>
      if strContains (jsToLowerCase content) (jsToLowerCase kw) then
        runKeywordChecks content filePath kws
          (if filePath ∈ locs then locs else locs ++ [filePath])
      else runKeywordChecks content filePath kws locs

/-- The file path of a likely location: `loc.split(":")[0]`, the text
before the first colon (the whole string when there is none) — the
qualifier after the colon stripped. -/
def locPath (loc : String) : String :=
  String.mk (loc.data.takeWhile (fun c => c ≠ ':'))

/-- Processing of one likely location by `runStaticChecks`: strip the
qualifier after `:`, look the file up, and run the pattern and keyword
checks on its content. A missing (or unreadable) file is skipped. -/
def checkOneLocation (patterns : List (String × RE)) (keywords : List String)
    (fs : String → Option String) (acc : List String × List String)
    (loc : String) : List String × List String :=
  let filePath := locPath loc
  match fs filePath with
  | none => acc
  | some content =>
      let acc2 := runPatternChecks content filePath patterns acc
      (runKeywordChecks content filePath keywords acc2.1, acc2.2)

/-- The outer loop of `runStaticChecks` over the likely locations. -/
def checkLocationsLoop (patterns : List (String × RE)) (keywords : List String)
    (fs : String → Option String) :
    List String → (List String × List String) → List String × List String
  | [], acc => acc
  | loc :: rest, acc =>
      checkLocationsLoop patterns keywords fs rest
        (checkOneLocation patterns keywords fs acc loc)

/-- Order-preserving duplicate removal, as `[...new Set(xs)]`. -/
def dedupKeepFirst : List String → List String
  | [] => []
  | x :: rest => x :: dedupKeepFirst (rest.filter (fun y => y ≠ x))
termination_by l => l.length
decreasing_by
  simp only [List.length_cons]
  exact Nat.lt_succ_of_le (List.length_filter_le _ _)

/-- Translation of `runStaticChecks`: run the category's patterns and the
rationale keywords over every existing likely-location file; evidence is
found exactly when some pattern produced a detail line. The repository is
modelled as a partial map from path to content (`existsSync` +
`readFileSync` success). -/
def runStaticChecks (hypothesis : AttackHypothesis)
    (fs : String → Option String) : HypothesisCheckResult :=
  let categoryPatterns := patternsFor hypothesis.category
  let keywords := extractKeywords hypothesis.rationale
  let acc := checkLocationsLoop categoryPatterns keywords fs
    hypothesis.likely_locations ([], [])
  let evidenceFound := acc.2.length > 0
  let details :=
    if evidenceFound then
      "Static analysis found supporting evidence:\n" ++ String.intercalate "\n" acc.2
    else "No supporting evidence found via static analysis."
  { hypothesisId := hypothesis.id
    evidenceFound := evidenceFound
    details := details
    locations := dedupKeepFirst acc.1 }

-- ───────────────────────── Shared helper lemmas ─────────────────────────

/-- The digest of `sha256` always has exactly 32 bytes. -/
theorem sha256_length (msg : List Nat) : (sha256 msg).length = 32 := by
  simp [sha256, wordBytes]

/-- Hex rendering doubles the length. -/
theorem bytesToHex_length (bs : List Nat) : (bytesToHex bs).length = 2 * bs.length := by
  induction bs with
  | nil => rfl
  | cons b rest ih => simp [bytesToHex, ih]; ring

/-- Every output of `hexDigit` is a lowercase hex character. -/
theorem hexDigit_hex (n : Nat) : isHexLowerChar (hexDigit n) = true := by
  by_cases h : n < 16
  · interval_cases n <;> rfl
  · have hlen : hexAlphabet.length ≤ n := by
      simp only [hexAlphabet, List.length]
      omega
    rw [hexDigit, List.getD_eq_default _ _ hlen]
    rfl

/-- Every character of a hex rendering is a lowercase hex character. -/
theorem bytesToHex_all_hex (bs : List Nat) :
    (bytesToHex bs).all isHexLowerChar = true := by
  induction bs with
  | nil => rfl
  | cons b rest ih => simp [bytesToHex, List.all_cons, hexDigit_hex, ih]

-- ───────────────────────── Claim theorems ─────────────────────────

/-- C1. For every attack hypothesis `H` and every check result `R`,
`hypothesisToFinding H R` is `none` whenever `R.evidenceFound` is false;
and whenever `R.evidenceFound` is true it is a raw finding whose severity
equals `H.risk` and whose tool is `"llm-planner"`. -/
theorem C1_evidence_gating (H : AttackHypothesis) (R : HypothesisCheckResult)
    (demoLabel : Option String) :
    (R.evidenceFound = false → hypothesisToFinding H R demoLabel = none) ∧
    (R.evidenceFound = true →
      ∃ f, hypothesisToFinding H R demoLabel = some f ∧
        f.severity = H.risk ∧ f.tool = "llm-planner") := by
  constructor
  · intro h
    simp [hypothesisToFinding, h]
  · intro h
    unfold hypothesisToFinding
    rw [if_neg (by simp [h])]
    exact ⟨_, rfl, rfl, rfl⟩

/-- A sample hypothesis for concrete instantiations. -/
def hSample : AttackHypothesis :=
  { id := "HYPO-001"
    title := "Reflected input reaches a template"
    category := "injection"
    risk := Severity.high
    confidence := "medium"
    rationale := "The route interpolates `req.query.q` into HTML."
    evidence_to_collect := "A template call receiving raw query input."
    safe_test_plan := "GET http://localhost:3000/search?q=probe and inspect the response."
    likely_locations := ["src/routes/search.ts:searchHandler"]
    references := ["CWE-79"] }

/-- A check result that found no evidence. -/
def rNoEvidence : HypothesisCheckResult :=
  { hypothesisId := "HYPO-001"
    evidenceFound := false
    details := "No supporting evidence found via static analysis."
    locations := [] }

/-- Witness for C1: at a concrete hypothesis and a concrete evidence-free
check result, no finding is promoted. -/
theorem C1_evidence_gating_witness :
    hypothesisToFinding hSample rNoEvidence none = none :=
  (C1_evidence_gating hSample rNoEvidence none).1 rfl

/-- C3. The fingerprint attached by normalization is a function of
`tool`, `category`, `location.path` and `title` only, up to letter case
and surrounding whitespace: two raw findings agreeing on those four
fields after case folding and trimming — whatever their lines, evidence
or any other field — receive the same fingerprint. -/
theorem C3_fingerprint_only_identity_fields (r1 r2 : RawFinding)
    (htool : normalizeField r1.tool = normalizeField r2.tool)
    (hcat : normalizeField r1.category = normalizeField r2.category)
    (hpath : normalizeField r1.location.path = normalizeField r2.location.path)
    (htitle : normalizeField r1.title = normalizeField r2.title) :
    (normalizeOne r1).fingerprint = (normalizeOne r2).fingerprint := by
  simp [normalizeOne, generateFingerprint, htool, hcat, hpath, htitle]

/-- A raw dependency finding. -/
def rawDep1 : RawFinding :=
  { rawId := "GHSA-1234"
    title := "Prototype Pollution in lodash"
    severity := Severity.high
    confidence := "high"
    tool := "npm-audit"
    category := "dependency"
    location := { path := "package.json (lodash)", startLine := some 3 }
    evidence := "Package: lodash, Severity: high"
    remediation := "Update to lodash@4.17.21"
    references := ["https://nvd.nist.gov/vuln/detail/CVE-2021-23337"] }

/-- The same fact reported with different case, surrounding whitespace,
line numbers and evidence. -/
def rawDep2 : RawFinding :=
  { rawId := "other-id"
    title := "  PROTOTYPE POLLUTION IN LODASH "
    severity := Severity.medium
    confidence := "low"
    tool := "NPM-AUDIT"
    category := " Dependency"
    location := { path := "PACKAGE.JSON (LODASH)  ", startLine := some 99, endLine := some 120 }
    evidence := "entirely different evidence text"
    remediation := "different remediation"
    references := [] }

/-- Witness for C3: the two concrete raw findings above differ in lines,
evidence and case, yet normalize to the same fingerprint. -/
theorem C3_fingerprint_only_identity_fields_witness :
    (normalizeOne rawDep1).fingerprint = (normalizeOne rawDep2).fingerprint :=
  C3_fingerprint_only_identity_fields rawDep1 rawDep2
    (by decide) (by decide) (by decide) (by decide)

/-- C4. `generateFingerprint` is deterministic, case- and
whitespace-insensitive on its fields, and always yields a 64-character
lowercase hex digest. -/
theorem C4_fingerprint_determinism (fields fields' : List String)
    (hnorm : fields'.map normalizeField = fields.map normalizeField) :
    generateFingerprint fields = generateFingerprint fields ∧
    generateFingerprint fields' = generateFingerprint fields ∧
    (generateFingerprint fields).length = 64 ∧
    (generateFingerprint fields).data.all isHexLowerChar = true := by
  refine ⟨rfl, ?_, ?_, ?_⟩
  · simp [generateFingerprint, hnorm]
  · show (bytesToHex (sha256 _)).length = 64
    rw [bytesToHex_length, sha256_length]
  · exact bytesToHex_all_hex _

/-- The partition loop equals a filter (misses) paired with a filterMap
(hits). -/
theorem partitionFindings_eq (m : List (String × Nat)) (l : List Finding) :
    partitionFindings m l =
      (l.filter (fun f => (mapGet m f.fingerprint).isNone),
       l.filterMap (fun f => (mapGet m f.fingerprint).map (fun n => (f, n)))) := by
  induction l with
  | nil => rfl
  | cons f rest ih =>
      cases h : mapGet m f.fingerprint <;>
        simp [partitionFindings, ih, h, List.filter_cons, List.filterMap_cons]

/-- The two sides of the partition cover the input exactly once each. -/
theorem partitionFindings_lengths (m : List (String × Nat)) (l : List Finding) :
    (partitionFindings m l).1.length + (partitionFindings m l).2.length = l.length := by
  induction l with
  | nil => rfl
  | cons f rest ih =>
      cases h : mapGet m f.fingerprint <;> simp [partitionFindings, h] <;> omega

/-- With `Nodup` keys, `mapGet` finds exactly the stored binding. -/
theorem mapGet_eq_of_nodup (m : List (String × Nat)) (fp : String) (n : Nat)
    (hnd : (m.map Prod.fst).Nodup) (hmem : (fp, n) ∈ m) : mapGet m fp = some n := by
  induction m with
  | nil => cases hmem
  | cons p rest ih =>
      rcases List.mem_cons.mp hmem with heq | htail
      · subst heq
        simp [mapGet, List.find?_cons]
      · have hne : p.1 ≠ fp := by
          intro hcontra
          have : fp ∈ rest.map Prod.fst :=
            List.mem_map.mpr ⟨(fp, n), htail, rfl⟩
          rw [List.map_cons, List.nodup_cons] at hnd
          exact hnd.1 (hcontra ▸ this)
        have hrest := ih (by rw [List.map_cons, List.nodup_cons] at hnd; exact hnd.2) htail
        simpa [mapGet, List.find?_cons, hne] using hrest

/-- The resolved loop is the filter of tracker entries whose fingerprint
left the current scan, keeping their issue numbers. -/
theorem resolvedLoop_eq (cur : List String) (issues : List (String × Nat)) :
    resolvedLoop cur issues =
      (issues.filter (fun p => decide (p.1 ∉ cur))).map Prod.snd := by
  induction issues with
  | nil => rfl
  | cons p rest ih =>
      by_cases h : p.1 ∈ cur <;> simp [resolvedLoop, h, ih, List.filter_cons]

/-- Unfolding of `deduplicate` into its three characterizations. -/
theorem deduplicate_def (findings : List Finding) (issues : List (String × Nat)) :
    deduplicate findings issues =
      { newFindings := findings.filter (fun f => (mapGet issues f.fingerprint).isNone)
        existingFindings := findings.filterMap
          (fun f => (mapGet issues f.fingerprint).map (fun n => (f, n)))
        resolvedIssueNumbers :=
          resolvedLoop (findings.map (fun f => f.fingerprint)) issues
        totalRaw := findings.length } := by
  have h := partitionFindings_eq issues findings
  unfold deduplicate
  rw [h]

/-- C2. The `DedupResult` of `deduplicate` is a complete, non-overlapping
partition: every current finding lands in exactly one of
`newFindings`/`existingFindings`, the two lengths sum to `totalRaw` = the
number of current findings, and every tracker fingerprint lands in
exactly one of `existingFindings` (when still scanned) and
`resolvedIssueNumbers` (when gone), the latter being exactly the filter
of departed entries. -/
theorem C2_dedup_partition (findings : List Finding) (issues : List (String × Nat))
    (hkeys : (issues.map Prod.fst).Nodup) :
    (deduplicate findings issues).totalRaw = findings.length ∧
    (deduplicate findings issues).newFindings.length +
      (deduplicate findings issues).existingFindings.length = findings.length ∧
    (∀ f ∈ findings,
      (f ∈ (deduplicate findings issues).newFindings ∧
        ¬ ∃ n, (f, n) ∈ (deduplicate findings issues).existingFindings) ∨
      (f ∉ (deduplicate findings issues).newFindings ∧
        ∃ n, (f, n) ∈ (deduplicate findings issues).existingFindings)) ∧
    (∀ fp n, (fp, n) ∈ issues →
      (fp ∈ findings.map (fun f => f.fingerprint) ↔
        ∃ f, (f, n) ∈ (deduplicate findings issues).existingFindings ∧
          f.fingerprint = fp)) ∧
    (deduplicate findings issues).resolvedIssueNumbers =
      (issues.filter
        (fun p => decide (p.1 ∉ findings.map (fun f => f.fingerprint)))).map
        Prod.snd := by
  simp only [deduplicate_def]
  refine ⟨trivial, ?_, ?_, ?_, ?_⟩
  · have hlen := partitionFindings_lengths issues findings
    rw [partitionFindings_eq] at hlen
    simpa using hlen
  · intro f hf
    cases h : mapGet issues f.fingerprint with
    | none =>
        left
        refine ⟨List.mem_filter.mpr ⟨hf, by simp [h]⟩, ?_⟩
        rintro ⟨n, hn⟩
        rcases List.mem_filterMap.mp hn with ⟨g, _, hg⟩
        rcases Option.map_eq_some'.mp hg with ⟨n', hget, heq⟩
        have hgf : g = f := congrArg Prod.fst heq
        rw [hgf] at hget
        simp [h] at hget
    | some n0 =>
        right
        refine ⟨?_, ⟨n0, List.mem_filterMap.mpr ⟨f, hf, by simp [h]⟩⟩⟩
        intro hmem
        have hisnone := (List.mem_filter.mp hmem).2
        simp [h] at hisnone
  · intro fp n hmem
    constructor
    · intro hcur
      rcases List.mem_map.mp hcur with ⟨f, hf, hfp⟩
      refine ⟨f, List.mem_filterMap.mpr ⟨f, hf, ?_⟩, hfp⟩
      rw [hfp, mapGet_eq_of_nodup issues fp n hkeys hmem]
      rfl
    · rintro ⟨f, hf, hfp⟩
      rcases List.mem_filterMap.mp hf with ⟨g, hg, hmap⟩
      rcases Option.map_eq_some'.mp hmap with ⟨n', hget, heq⟩
      have hgf : g = f := congrArg Prod.fst heq
      exact List.mem_map.mpr ⟨f, hgf ▸ hg, hfp⟩
  · exact resolvedLoop_eq _ issues

/-- A concrete finding for the dedup witness. -/
def fDedupW : Finding :=
  { id := "aaaaaaaaaaaa"
    title := "Potential secret detected: aws-access-key"
    severity := Severity.critical
    confidence := "medium"
    tool := "secret-detection"
    category := "secret"
    location := { path := "secrets.example", startLine := some 7, endLine := some 7 }
    evidence := "AKIA************MPLE"
    remediation := "Remove the secret and rotate."
    references := []
    fingerprint := "aa" }

/-- Witness for C2: with one matched finding and one departed tracker
entry, the two partition sides cover the single current finding. -/
theorem C2_dedup_partition_witness :
    (deduplicate [fDedupW] [("aa", 7), ("bb", 9)]).newFindings.length +
      (deduplicate [fDedupW] [("aa", 7), ("bb", 9)]).existingFindings.length = 1 :=
  (C2_dedup_partition [fDedupW] [("aa", 7), ("bb", 9)] (by decide)).2.1

/-- The create loop takes exactly the first `budget` findings. -/
theorem createLoop_eq_take (tracker : Finding → Nat × String) (budget : Nat)
    (l : List Finding) :
    createLoop tracker budget l = (l.take budget).map (mkCreatedResult tracker) := by
  induction l generalizing budget with
  | nil => cases budget <;> rfl
  | cons f rest ih =>
      cases budget with
      | zero => rfl
      | succ b => simp [createLoop, ih b]

/-- Findings filtered to one severity. -/
def sevFilter (s : Severity) (l : List Finding) : List Finding :=
  l.filter (fun f => f.severity = s)

/-- Every member of a severity filter has that severity. -/
theorem sevFilter_mem {s : Severity} {l : List Finding} {g : Finding}
    (h : g ∈ sevFilter s l) : g.severity = s := by
  have := (List.mem_filter.mp h).2
  simpa using this

/-- Insertion passes over a block of strictly more severe findings. -/
theorem insertBySeverity_lt_append (f : Finding) (A rest : List Finding)
    (hA : ∀ g ∈ A, severityOrder g.severity < severityOrder f.severity) :
    insertBySeverity f (A ++ rest) = A ++ insertBySeverity f rest := by
  induction A with
  | nil => rfl
  | cons a A ih =>
      have ha := hA a (List.mem_cons_self a A)
      have hA2 := fun g hg => hA g (List.mem_cons_of_mem a hg)
      show insertBySeverity f (a :: (A ++ rest)) = a :: (A ++ insertBySeverity f rest)
      rw [show insertBySeverity f (a :: (A ++ rest)) =
        if severityOrder a.severity < severityOrder f.severity then
          a :: insertBySeverity f (A ++ rest)
        else f :: a :: (A ++ rest) from rfl]
      rw [if_pos ha, ih hA2]

/-- Insertion stops in front of findings that are not strictly more
severe — so equal severities keep input order. -/
theorem insertBySeverity_ge (f : Finding) (rest : List Finding)
    (hrest : ∀ g ∈ rest, ¬ severityOrder g.severity < severityOrder f.severity) :
    insertBySeverity f rest = f :: rest := by
  cases rest with
  | nil => rfl
  | cons g t =>
      simp only [insertBySeverity, if_neg (hrest g (List.mem_cons_self g t))]

/-- Characterization of the stable severity sort: the four severity
blocks in order, each keeping input order. -/
theorem sortBySeverity_eq (l : List Finding) :
    sortBySeverity l =
      sevFilter .critical l ++ sevFilter .high l ++ sevFilter .medium l ++
        sevFilter .low l := by
  induction l with
  | nil => rfl
  | cons f rest ih =>
      have hstep : sortBySeverity (f :: rest) = insertBySeverity f (sortBySeverity rest) := rfl
      rw [hstep, ih]
      simp only [List.append_assoc]
      cases hs : f.severity with
      | critical =>
          have hge : ∀ g ∈ sevFilter Severity.critical rest ++
              (sevFilter Severity.high rest ++
                (sevFilter Severity.medium rest ++ sevFilter Severity.low rest)),
              ¬ severityOrder g.severity < severityOrder f.severity := by
            intro g hg
            simp only [List.mem_append] at hg
            rcases hg with h | h | h | h <;>
              · have := sevFilter_mem h
                simp [severityOrder, this, hs]
          rw [insertBySeverity_ge f _ hge]
          simp [sevFilter, List.filter_cons, hs]
      | high =>
          have hA : ∀ g ∈ sevFilter Severity.critical rest,
              severityOrder g.severity < severityOrder f.severity := by
            intro g hg
            have := sevFilter_mem hg
            simp [severityOrder, this, hs]
          have hge : ∀ g ∈ sevFilter Severity.high rest ++
              (sevFilter Severity.medium rest ++ sevFilter Severity.low rest),
              ¬ severityOrder g.severity < severityOrder f.severity := by
            intro g hg
            simp only [List.mem_append] at hg
            rcases hg with h | h | h <;>
              · have := sevFilter_mem h
                simp [severityOrder, this, hs]
          rw [insertBySeverity_lt_append f _ _ hA, insertBySeverity_ge f _ hge]
          simp [sevFilter, List.filter_cons, hs]
      | medium =>
          have hA1 : ∀ g ∈ sevFilter Severity.critical rest,
              severityOrder g.severity < severityOrder f.severity := by
            intro g hg
            have := sevFilter_mem hg
            simp [severityOrder, this, hs]
          have hA2 : ∀ g ∈ sevFilter Severity.high rest,
              severityOrder g.severity < severityOrder f.severity := by
            intro g hg
            have := sevFilter_mem hg
            simp [severityOrder, this, hs]
          have hge : ∀ g ∈ sevFilter Severity.medium rest ++ sevFilter Severity.low rest,
              ¬ severityOrder g.severity < severityOrder f.severity := by
            intro g hg
            simp only [List.mem_append] at hg
            rcases hg with h | h <;>
              · have := sevFilter_mem h
                simp [severityOrder, this, hs]
          rw [insertBySeverity_lt_append f _ _ hA1, insertBySeverity_lt_append f _ _ hA2,
            insertBySeverity_ge f _ hge]
          simp [sevFilter, List.filter_cons, hs]
      | low =>
          have hA1 : ∀ g ∈ sevFilter Severity.critical rest,
              severityOrder g.severity < severityOrder f.severity := by
            intro g hg
            have := sevFilter_mem hg
            simp [severityOrder, this, hs]
          have hA2 : ∀ g ∈ sevFilter Severity.high rest,
              severityOrder g.severity < severityOrder f.severity := by
            intro g hg
            have := sevFilter_mem hg
            simp [severityOrder, this, hs]
          have hA3 : ∀ g ∈ sevFilter Severity.medium rest,
              severityOrder g.severity < severityOrder f.severity := by
            intro g hg
            have := sevFilter_mem hg
            simp [severityOrder, this, hs]
          have hge : ∀ g ∈ sevFilter Severity.low rest,
              ¬ severityOrder g.severity < severityOrder f.severity := by
            intro g hg
            have := sevFilter_mem hg
            simp [severityOrder, this, hs]
          rw [insertBySeverity_lt_append f _ _ hA1, insertBySeverity_lt_append f _ _ hA2,
            insertBySeverity_lt_append f _ _ hA3, insertBySeverity_ge f _ hge]
          simp [sevFilter, List.filter_cons, hs]

/-- Unfolding of `processIssues` into its three blocks. -/
theorem processIssues_def (tracker : Finding → Nat × String) (d : DedupResult)
    (cfg : IssuesConfig) (owner repo : String) :
    processIssues tracker d cfg owner repo =
      ((sortBySeverity d.newFindings).take cfg.maxPerRun).map (mkCreatedResult tracker) ++
        d.existingFindings.map (mkSkippedResult owner repo) ++
        (if cfg.autoClose then d.resolvedIssueNumbers.map (mkClosedResult owner repo)
         else []) := by
  simp only [processIssues]
  rw [createLoop_eq_take]

/-- C5. Under the configured cap, `processIssues` produces at most
`maxPerRun` created results; the created results are exactly the most
severe new findings, in the stable severity order (critical, high,
medium, low, ties by input order), truncated at the cap; and new findings
beyond the cap produce no result at all — in particular no closed result
carries a finding, and nothing closes or resolves a skipped-over new
finding. -/
theorem C5_rate_cap (tracker : Finding → Nat × String) (d : DedupResult)
    (cfg : IssuesConfig) (owner repo : String) :
    (processIssues tracker d cfg owner repo).filter
        (fun r => decide (r.action = IssueAction.created)) =
      ((sortBySeverity d.newFindings).take cfg.maxPerRun).map
        (mkCreatedResult tracker) ∧
    ((processIssues tracker d cfg owner repo).filter
        (fun r => decide (r.action = IssueAction.created))).length ≤ cfg.maxPerRun ∧
    sortBySeverity d.newFindings =
      sevFilter .critical d.newFindings ++ sevFilter .high d.newFindings ++
        sevFilter .medium d.newFindings ++ sevFilter .low d.newFindings ∧
    (∀ r ∈ processIssues tracker d cfg owner repo,
      r.action = IssueAction.closed → r.finding = none) ∧
    (∀ f ∈ d.newFindings,
      f ∉ (sortBySeverity d.newFindings).take cfg.maxPerRun →
      f ∉ d.existingFindings.map Prod.fst →
      ∀ r ∈ processIssues tracker d cfg owner repo, r.finding ≠ some f) := by
  have hfil : (processIssues tracker d cfg owner repo).filter
      (fun r => decide (r.action = IssueAction.created)) =
      ((sortBySeverity d.newFindings).take cfg.maxPerRun).map
        (mkCreatedResult tracker) := by
    rw [processIssues_def, List.filter_append, List.filter_append]
    have h1 : (((sortBySeverity d.newFindings).take cfg.maxPerRun).map
        (mkCreatedResult tracker)).filter
        (fun r => decide (r.action = IssueAction.created)) =
        ((sortBySeverity d.newFindings).take cfg.maxPerRun).map
          (mkCreatedResult tracker) := by
      apply List.filter_eq_self.mpr
      intro r hr
      rcases List.mem_map.mp hr with ⟨f, _, rfl⟩
      simp [mkCreatedResult]
    have h2 : (d.existingFindings.map (mkSkippedResult owner repo)).filter
        (fun r => decide (r.action = IssueAction.created)) = [] := by
      apply List.filter_eq_nil_iff.mpr
      intro r hr
      rcases List.mem_map.mp hr with ⟨p, _, rfl⟩
      simp [mkSkippedResult]
    have h3 : ((if cfg.autoClose then
        d.resolvedIssueNumbers.map (mkClosedResult owner repo) else [])).filter
        (fun r => decide (r.action = IssueAction.created)) = [] := by
      cases cfg.autoClose with
      | false => rfl
      | true =>
          apply List.filter_eq_nil_iff.mpr
          intro r hr
          rcases List.mem_map.mp (by simpa using hr) with ⟨n, _, rfl⟩
          simp [mkClosedResult]
    rw [h1, h2, h3, List.append_nil, List.append_nil]
  refine ⟨hfil, ?_, sortBySeverity_eq d.newFindings, ?_, ?_⟩
  · rw [hfil, List.length_map, List.length_take]
    exact Nat.min_le_left _ _
  · intro r hr hclosed
    rw [processIssues_def] at hr
    rcases List.mem_append.mp hr with h12 | h3
    · rcases List.mem_append.mp h12 with h1 | h2
      · rcases List.mem_map.mp h1 with ⟨f, _, rfl⟩
        simp [mkCreatedResult] at hclosed
      · rcases List.mem_map.mp h2 with ⟨p, _, rfl⟩
        simp [mkSkippedResult] at hclosed
    · cases hac : cfg.autoClose with
      | false => rw [hac] at h3; cases h3
      | true =>
          rw [hac] at h3
          rcases List.mem_map.mp (by simpa using h3) with ⟨n, _, rfl⟩
          rfl
  · intro f _ hnotake hnotex r hr
    rw [processIssues_def] at hr
    rcases List.mem_append.mp hr with h12 | h3
    · rcases List.mem_append.mp h12 with h1 | h2
      · rcases List.mem_map.mp h1 with ⟨g, hg, rfl⟩
        intro hcontra
        have : g = f := by simpa [mkCreatedResult] using hcontra
        exact hnotake (this ▸ hg)
      · rcases List.mem_map.mp h2 with ⟨p, hp, rfl⟩
        intro hcontra
        have : p.1 = f := by simpa [mkSkippedResult] using hcontra
        exact hnotex (List.mem_map.mpr ⟨p, hp, this⟩)
    · cases hac : cfg.autoClose with
      | false => rw [hac] at h3; cases h3
      | true =>
          rw [hac] at h3
          rcases List.mem_map.mp (by simpa using h3) with ⟨n, _, rfl⟩
          simp [mkClosedResult]

/-- Appending strings appends their character data. -/
theorem strData_append (a b : String) : (a ++ b).data = a.data ++ b.data := rfl

/-- Stripping a literal off itself leaves the remainder. -/
theorem stripLiteral_self_append (p r : List Char) :
    stripLiteral p (p ++ r) = some r := by
  induction p with
  | nil => rfl
  | cons c cs ih => simp [stripLiteral, ih]

/-- A list is a Boolean prefix of itself followed by anything. -/
theorem isPrefixOf_self_append (p t : List Char) : p.isPrefixOf (p ++ t) = true := by
  simp [List.isPrefixOf_iff_prefix]

/-- A marker attempt at the start of a well-formed marker succeeds with
the embedded fingerprint as capture. -/
theorem markerCaptureAt_roundtrip (fp : String) (t : List Char)
    (hlen : fp.length = 64) (hhex : fp.data.all isHexLowerChar = true) :
    markerCaptureAt (fingerprintMarkerHead.data ++
      (fp.data ++ (fingerprintMarkerTail.data ++ t))) = some fp := by
  have h64 : fp.data.length = 64 := hlen
  unfold markerCaptureAt
  rw [stripLiteral_self_append]
  have htake : (fp.data ++ (fingerprintMarkerTail.data ++ t)).take 64 = fp.data := by
    rw [← h64, List.take_left]
  have hdrop : (fp.data ++ (fingerprintMarkerTail.data ++ t)).drop 64 =
      fingerprintMarkerTail.data ++ t := by
    rw [← h64, List.drop_left]
  simp only [htake, hdrop, h64, hhex, isPrefixOf_self_append, beq_self_eq_true,
    Bool.and_self, Bool.and_true, Bool.true_and, if_true]

/-- The scan finds the marker sitting at the very start of the body. -/
theorem markerScan_roundtrip (fp : String) (t : List Char)
    (hlen : fp.length = 64) (hhex : fp.data.all isHexLowerChar = true) :
    markerScan (fingerprintMarkerHead.data ++
      (fp.data ++ (fingerprintMarkerTail.data ++ t))) = some fp := by
  have hhead : fingerprintMarkerHead.data =
      '<' :: ("!-- redteam-fingerprint:").data := rfl
  have hcap := markerCaptureAt_roundtrip fp t hlen hhex
  rw [hhead, List.cons_append] at hcap ⊢
  rw [markerScan, hcap]

/-- C6. The issue-body fingerprint marker round-trips under every
persona: for every finding whose fingerprint is a 64-character lowercase
hex string and every persona, the marker regex applied to
`buildIssueBody` captures exactly the finding's fingerprint. -/
theorem C6_marker_roundtrip (finding : Finding) (persona : Persona)
    (hlen : finding.fingerprint.length = 64)
    (hhex : finding.fingerprint.data.all isHexLowerChar = true) :
    execFingerprintRegex (buildIssueBody finding (some persona)) =
      some finding.fingerprint := by
  have hshape : (buildIssueBody finding (some persona)).data =
      fingerprintMarkerHead.data ++ (finding.fingerprint.data ++
        (fingerprintMarkerTail.data ++
          ((bodyPreamble finding persona ++
            ((if finding.category = "secret" then maskSecret finding.evidence
              else finding.evidence) ++ bodyAfterEvidence finding persona))).data)) := by
    simp only [buildIssueBody, bodyBeforeEvidence, Option.getD_some, strData_append,
      List.append_assoc]
  show markerScan (buildIssueBody finding (some persona)).data = some finding.fingerprint
  rw [hshape]
  exact markerScan_roundtrip finding.fingerprint _ hlen hhex

/-- A finding with a concrete 64-character lowercase hex fingerprint. -/
def fMarkerW : Finding :=
  { fDedupW with
      fingerprint := String.mk (List.replicate 64 'a')
      id := "aaaaaaaaaaaa" }

/-- Witness for C6: the marker of a concrete finding's body under the
Chuck Norris persona parses back to its fingerprint. -/
theorem C6_marker_roundtrip_witness :
    execFingerprintRegex (buildIssueBody fMarkerW (some chuckNorrisPersona)) =
      some fMarkerW.fingerprint :=
  C6_marker_roundtrip fMarkerW chuckNorrisPersona (by decide) (by decide)

/-- Evaluation of `Char.ofNat` below the surrogate range. -/
theorem charOfNat_toNat {n : Nat} (h : n < 55296) : (Char.ofNat n).toNat = n := by
  unfold Char.ofNat
  rw [dif_pos (Or.inl h)]
  rfl

/-- Lower-casing never produces a colon from a non-colon. -/
theorem asciiLower_ne_colon (c : Char) (hc : c ≠ ':') : asciiLower c ≠ ':' := by
  unfold asciiLower
  by_cases h : 'A' ≤ c ∧ c ≤ 'Z'
  · rw [if_pos h]
    intro heq
    have h1 : 65 ≤ c.toNat := h.1
    have h2 : c.toNat ≤ 90 := h.2
    have hv : c.toNat + 32 < 55296 := by omega
    have h58 : (':' : Char).toNat = 58 := rfl
    have hto := congrArg Char.toNat heq
    rw [charOfNat_toNat hv, h58] at hto
    omega
  · rw [if_neg h]
    exact hc

/-- The character data of an extracted hostname. -/
theorem hostnameOfCapture_data (cap : String) :
    (hostnameOfCapture cap).data =
      (cap.data.takeWhile (fun c => decide (c ≠ ':'))).map asciiLower := rfl

/-- An extracted hostname never contains a colon. -/
theorem hostname_no_colon (cap : String) : ':' ∉ (hostnameOfCapture cap).data := by
  intro hmem
  rw [hostnameOfCapture_data] at hmem
  rcases List.mem_map.mp hmem with ⟨c, hc, heq⟩
  have hcne : c ≠ ':' := by
    have := List.mem_takeWhile_imp hc
    simpa using this
  exact asciiLower_ne_colon c hcne heq

/-- The allow-list entry `"::1"` is unreachable: no extracted hostname
can equal it. -/
theorem hostname_ne_ipv6_loopback (cap : String) : hostnameOfCapture cap ≠ "::1" := by
  intro heq
  apply hostname_no_colon cap
  rw [heq]
  decide

/-- C7 (amended). `filterSafeHypotheses` keeps a sublist of its input
(original order, unmodified content) containing exactly the hypotheses
whose every HTTP(S) reference has an extracted hostname — the captured
text before the first colon, lowercased — equal to some lowercased and
trimmed allow-list entry. Under the default allow-list, references whose
hostnames are `localhost` or `127.0.0.1` are kept and any other
reference drops the hypothesis; in particular the `"::1"` entry is
unreachable because an extracted hostname never contains a colon. -/
theorem C7_allowlist_filter (hypotheses : List AttackHypothesis)
    (allowlist : List String) (h : AttackHypothesis) :
    (filterSafeHypotheses hypotheses allowlist).Sublist hypotheses ∧
    (h ∈ filterSafeHypotheses hypotheses allowlist ↔
      h ∈ hypotheses ∧ ∀ cap ∈ urlCapturesOf h.safe_test_plan,
        ∃ a ∈ allowlist, hostnameOfCapture cap = jsTrim (jsToLowerCase a)) ∧
    (h ∈ hypotheses →
      (∀ cap ∈ urlCapturesOf h.safe_test_plan,
        hostnameOfCapture cap = "localhost" ∨ hostnameOfCapture cap = "127.0.0.1") →
      h ∈ filterSafeHypotheses hypotheses DEFAULT_TARGET_ALLOWLIST) ∧
    (h ∈ hypotheses →
      (∃ cap ∈ urlCapturesOf h.safe_test_plan,
        hostnameOfCapture cap ≠ "localhost" ∧ hostnameOfCapture cap ≠ "127.0.0.1") →
      h ∉ filterSafeHypotheses hypotheses DEFAULT_TARGET_ALLOWLIST) := by
  refine ⟨List.filter_sublist _, ?_, ?_, ?_⟩
  · simp [filterSafeHypotheses, List.mem_filter, List.all_eq_true, List.any_eq_true]
  · intro hmem hcaps
    apply List.mem_filter.mpr
    refine ⟨hmem, List.all_eq_true.mpr ?_⟩
    intro cap hcap
    apply List.any_eq_true.mpr
    rcases hcaps cap hcap with hl | hi
    · exact ⟨"localhost", by decide, by rw [hl]; decide⟩
    · exact ⟨"127.0.0.1", by decide, by rw [hi]; decide⟩
  · intro hmem hbad hfil
    rcases hbad with ⟨cap, hcap, hne1, hne2⟩
    have hall := (List.mem_filter.mp hfil).2
    have hcapok := List.all_eq_true.mp hall cap hcap
    rcases List.any_eq_true.mp hcapok with ⟨a, ha, heq⟩
    have heq2 : hostnameOfCapture cap = jsTrim (jsToLowerCase a) := by
      simpa using heq
    have : a = "localhost" ∨ a = "127.0.0.1" ∨ a = "::1" := by
      simpa [DEFAULT_TARGET_ALLOWLIST] using ha
    rcases this with rfl | rfl | rfl
    · exact hne1 (by simpa using heq2)
    · exact hne2 (by simpa using heq2)
    · exact hostname_ne_ipv6_loopback cap (by simpa using heq2)

/-- A hypothesis whose safe test plan references only the IPv6 loopback
host, written `http` + `://::1/`. -/
def hLoopback : AttackHypothesis :=
  { hSample with safe_test_plan := "GET http://::1/health" }

/-- Counterexample for C7 as stated: this hypothesis's only HTTP
reference captures `"::1"` — verbatim an entry of the default allow-list,
the IPv6 loopback — yet the hypothesis is dropped, because the
hostname the filter extracts (text before the first colon) is empty. -/
theorem C7_counterexample :
    urlCapturesOf hLoopback.safe_test_plan = ["::1"] ∧
    "::1" ∈ DEFAULT_TARGET_ALLOWLIST ∧
    filterSafeHypotheses [hLoopback] DEFAULT_TARGET_ALLOWLIST = [] :=
  ⟨by decide, by decide, by decide⟩

/-- A hypothesis referencing only `localhost`. -/
def hLocal : AttackHypothesis :=
  { hSample with safe_test_plan := "GET http://localhost:3000/health" }

/-- Witness for C7 (amended): a concrete localhost-only hypothesis is
kept by the default allow-list. -/
theorem C7_allowlist_filter_witness :
    hLocal ∈ filterSafeHypotheses [hLocal] DEFAULT_TARGET_ALLOWLIST :=
  (C7_allowlist_filter [hLocal] DEFAULT_TARGET_ALLOWLIST hLocal).2.2.1
    (by decide) (by decide)

/-- The detail lines one location contributes: one per matching pattern
of the category, and nothing else — keywords never reach this list. -/
def dLoc (patterns : List (String × RE)) (fs : String → Option String)
    (loc : String) : List String :=
  match fs (locPath loc) with
  | none => []
  | some content =>
      (runPatternChecks content (locPath loc) patterns ([], [])).2

/-- The pattern loop prepends its accumulator to what it produces from an
empty start. -/
theorem runPatternChecks_acc (content filePath : String) (ps : List (String × RE))
    (acc : List String × List String) :
    runPatternChecks content filePath ps acc =
      (acc.1 ++ (runPatternChecks content filePath ps ([], [])).1,
       acc.2 ++ (runPatternChecks content filePath ps ([], [])).2) := by
  induction ps generalizing acc with
  | nil => simp [runPatternChecks]
  | cons p ps ih =>
      by_cases h : matchCount content p.2 > 0
      · simp only [runPatternChecks, if_pos h, List.nil_append]
        rw [ih (acc.1 ++ [filePath],
            acc.2 ++ [patternDetailLine p.1 (matchCount content p.2) filePath]),
          ih ([filePath], [patternDetailLine p.1 (matchCount content p.2) filePath])]
        simp [List.append_assoc]
      · simp only [runPatternChecks, if_neg h]
        exact ih acc

/-- The detail lines of the pattern loop are exactly one line per
matching pattern. -/
theorem runPatternChecks_details (content filePath : String)
    (ps : List (String × RE)) :
    (runPatternChecks content filePath ps ([], [])).2 =
      (ps.filter (fun p => decide (matchCount content p.2 > 0))).map
        (fun p => patternDetailLine p.1 (matchCount content p.2) filePath) := by
  induction ps with
  | nil => rfl
  | cons p ps ih =>
      by_cases h : matchCount content p.2 > 0
      · simp only [runPatternChecks, if_pos h, List.nil_append, List.filter_cons]
        rw [runPatternChecks_acc]
        simp [h, ih]
      · simp only [runPatternChecks, if_neg h, List.filter_cons]
        simp [h, ih]

/-- The locations of the pattern loop are copies of the file path, one
per matching pattern. -/
theorem runPatternChecks_locs (content filePath : String)
    (ps : List (String × RE)) :
    (runPatternChecks content filePath ps ([], [])).1 =
      (ps.filter (fun p => decide (matchCount content p.2 > 0))).map
        (fun _ => filePath) := by
  induction ps with
  | nil => rfl
  | cons p ps ih =>
      by_cases h : matchCount content p.2 > 0
      · simp only [runPatternChecks, if_pos h, List.nil_append, List.filter_cons]
        rw [runPatternChecks_acc]
        simp [h, ih]
      · simp only [runPatternChecks, if_neg h, List.filter_cons]
        simp [h, ih]

/-- Everything the keyword loop returns was already a location or is the
file path. -/
theorem runKeywordChecks_mem (content filePath : String) (kws : List String)
    (locs : List String) (x : String)
    (hx : x ∈ runKeywordChecks content filePath kws locs) :
    x ∈ locs ∨ x = filePath := by
  induction kws generalizing locs with
  | nil => exact Or.inl hx
  | cons kw kws ih =>
      simp only [runKeywordChecks] at hx
      by_cases h : strContains (jsToLowerCase content) (jsToLowerCase kw) = true
      · rw [if_pos h] at hx
        rcases ih _ hx with hin | hpath
        · by_cases h2 : filePath ∈ locs
          · rw [if_pos h2] at hin
            exact Or.inl hin
          · rw [if_neg h2] at hin
            rcases List.mem_append.mp hin with h3 | h3
            · exact Or.inl h3
            · right
              simpa using h3
        · exact Or.inr hpath
      · rw [if_neg h] at hx
        exact ih locs hx

/-- The keyword loop never removes a location. -/
theorem runKeywordChecks_mono (content filePath : String) (kws : List String)
    (locs : List String) (x : String) (hx : x ∈ locs) :
    x ∈ runKeywordChecks content filePath kws locs := by
  induction kws generalizing locs with
  | nil => exact hx
  | cons kw kws ih =>
      simp only [runKeywordChecks]
      by_cases h : strContains (jsToLowerCase content) (jsToLowerCase kw) = true
      · rw [if_pos h]
        apply ih
        by_cases h2 : filePath ∈ locs
        · rw [if_pos h2]
          exact hx
        · rw [if_neg h2]
          exact List.mem_append_left _ hx
      · rw [if_neg h]
        exact ih _ hx

/-- A found keyword guarantees the file path ends up among the
locations. -/
theorem runKeywordChecks_found (content filePath : String) (kws : List String)
    (locs : List String) (kw : String) (hkw : kw ∈ kws)
    (hfound : strContains (jsToLowerCase content) (jsToLowerCase kw) = true) :
    filePath ∈ runKeywordChecks content filePath kws locs := by
  induction kws generalizing locs with
  | nil => cases hkw
  | cons kw0 kws ih =>
      simp only [runKeywordChecks]
      rcases List.mem_cons.mp hkw with heq | htail
      · subst heq
        rw [if_pos hfound]
        apply runKeywordChecks_mono
        by_cases h2 : filePath ∈ locs
        · rw [if_pos h2]
          exact h2
        · rw [if_neg h2]
          exact List.mem_append_right _ (by simp)
      · by_cases h : strContains (jsToLowerCase content) (jsToLowerCase kw0) = true
        · rw [if_pos h]
          exact ih _ htail
        · rw [if_neg h]
          exact ih _ htail

/-- One location's contribution to the evidence details is `dLoc` — the
keyword list never appears. -/
theorem checkOneLocation_snd (patterns : List (String × RE)) (keywords : List String)
    (fs : String → Option String) (acc : List String × List String) (loc : String) :
    (checkOneLocation patterns keywords fs acc loc).2 = acc.2 ++ dLoc patterns fs loc := by
  unfold checkOneLocation dLoc
  cases h : fs (locPath loc) with
  | none => simp [h]
  | some content =>
      have hp := runPatternChecks_acc content (locPath loc) patterns acc
      simp [h, hp]

/-- The location loop's evidence details are the concatenation of each
location's `dLoc` lines, independent of the keywords. -/
theorem checkLocationsLoop_snd (patterns : List (String × RE)) (keywords : List String)
    (fs : String → Option String) (L : List String) (acc : List String × List String) :
    (checkLocationsLoop patterns keywords fs L acc).2 =
      acc.2 ++ (L.map (dLoc patterns fs)).flatten := by
  induction L generalizing acc with
  | nil => simp [checkLocationsLoop]
  | cons loc rest ih =>
      simp only [checkLocationsLoop]
      rw [ih, checkOneLocation_snd]
      simp [List.append_assoc]

/-- Emptiness of one location's detail lines. -/
theorem dLoc_ne_nil_iff (patterns : List (String × RE)) (fs : String → Option String)
    (loc : String) :
    dLoc patterns fs loc ≠ [] ↔
      ∃ content, fs (locPath loc) = some content ∧
        ∃ p ∈ patterns, matchCount content p.2 > 0 := by
  unfold dLoc
  cases h : fs (locPath loc) with
  | none => simp [h]
  | some content =>
      show (runPatternChecks content (locPath loc) patterns ([], [])).2 ≠ [] ↔ _
      rw [runPatternChecks_details]
      constructor
      · intro hne
        refine ⟨content, rfl, ?_⟩
        by_contra hnone
        push_neg at hnone
        apply hne
        rw [List.filter_eq_nil_iff.mpr ?_]
        · rfl
        · intro p hp
          simpa using hnone p hp
      · rintro ⟨c, hc, p, hp, hcount⟩
        have hcc : content = c := Option.some.inj hc
        subst hcc
        intro hnil
        have hfil := List.map_eq_nil_iff.mp hnil
        have := List.filter_eq_nil_iff.mp hfil p hp
        simp [hcount] at this

/-- The pattern table's keys. -/
def staticCheckCategories : List String :=
  ["injection", "auth-bypass", "info-disclosure", "misconfiguration",
   "secret-leak", "dependency"]

/-- Unknown categories look up to an empty pattern list. -/
theorem patternsFor_eq_nil (c : String) (hc : c ∉ staticCheckCategories) :
    patternsFor c = [] := by
  simp only [staticCheckCategories, List.mem_cons, List.not_mem_nil, or_false,
    not_or] at hc
  obtain ⟨h1, h2, h3, h4, h5, h6⟩ := hc
  simp [patternsFor, staticCheckPatterns, List.find?, Ne.symm h1, Ne.symm h2,
    Ne.symm h3, Ne.symm h4, Ne.symm h5, Ne.symm h6]

/-- C8. `runStaticChecks` reports evidence exactly when some
category-specific pattern matched in some existing likely-location file;
a category outside the pattern table's six keys can never produce
evidence, whatever the repository contains; and the rationale's quoted
fragments never contribute an evidence-details line — evidence and
details are unchanged under any rewrite of the rationale. -/
theorem C8_static_check_gating (hyp : AttackHypothesis)
    (fs : String → Option String) (r' : String) :
    ((runStaticChecks hyp fs).evidenceFound = true ↔
      ∃ loc ∈ hyp.likely_locations, ∃ content,
        fs (locPath loc) = some content ∧
        ∃ p ∈ patternsFor hyp.category, matchCount content p.2 > 0) ∧
    (hyp.category ∉ staticCheckCategories →
      (runStaticChecks hyp fs).evidenceFound = false) ∧
    ((runStaticChecks { hyp with rationale := r' } fs).evidenceFound =
        (runStaticChecks hyp fs).evidenceFound ∧
      (runStaticChecks { hyp with rationale := r' } fs).details =
        (runStaticChecks hyp fs).details) := by
  have hiff : (runStaticChecks hyp fs).evidenceFound = true ↔
      ∃ loc ∈ hyp.likely_locations, ∃ content,
        fs (locPath loc) = some content ∧
        ∃ p ∈ patternsFor hyp.category, matchCount content p.2 > 0 := by
    simp only [runStaticChecks, checkLocationsLoop_snd, List.nil_append]
    constructor
    · intro hlen
      have hne : ((hyp.likely_locations.map
          (dLoc (patternsFor hyp.category) fs)).flatten) ≠ [] := by
        intro hnil
        rw [hnil] at hlen
        simp at hlen
      have : ∃ l ∈ hyp.likely_locations.map (dLoc (patternsFor hyp.category) fs),
          l ≠ [] := by
        by_contra hall
        push_neg at hall
        exact hne (List.flatten_eq_nil_iff.mpr hall)
      rcases this with ⟨l, hl, hlne⟩
      rcases List.mem_map.mp hl with ⟨loc, hloc, rfl⟩
      rcases (dLoc_ne_nil_iff _ fs loc).mp hlne with ⟨content, hcontent, p, hp, hcount⟩
      exact ⟨loc, hloc, content, hcontent, p, hp, hcount⟩
    · rintro ⟨loc, hloc, content, hcontent, p, hp, hcount⟩
      have hlne : dLoc (patternsFor hyp.category) fs loc ≠ [] :=
        (dLoc_ne_nil_iff _ fs loc).mpr ⟨content, hcontent, p, hp, hcount⟩
      have : ((hyp.likely_locations.map
          (dLoc (patternsFor hyp.category) fs)).flatten) ≠ [] := by
        intro hnil
        exact hlne (List.flatten_eq_nil_iff.mp hnil _
          (List.mem_map.mpr ⟨loc, hloc, rfl⟩))
      simpa [List.length_pos, decide_eq_true_eq] using
        List.length_pos.mpr this
  refine ⟨hiff, ?_, ?_⟩
  · intro hcat
    cases hfound : (runStaticChecks hyp fs).evidenceFound with
    | false => rfl
    | true =>
        rcases hiff.mp hfound with ⟨_, _, _, _, p, hp, _⟩
        rw [patternsFor_eq_nil hyp.category hcat] at hp
        cases hp
  · constructor <;>
      simp [runStaticChecks, checkLocationsLoop_snd]

/-- A hypothesis with a category the pattern table does not know. -/
def hUnknownCat : AttackHypothesis :=
  { hSample with category := "business-logic" }

/-- A one-file repository whose `src/db.ts` quotes the hypothesis's
fragment. -/
def dbContent : String :=
  "export function queryUser(id) - concatenates id into a SQL string"

/-- The repository map for the static-check instantiations. -/
def fsDb : String → Option String :=
  fun p => if p = "src/db.ts" then some dbContent else none

/-- Witness for C8: an unknown category yields no evidence even over a
repository with existing, keyword-matching files. -/
theorem C8_static_check_gating_witness :
    (runStaticChecks hUnknownCat fsDb).evidenceFound = false :=
  (C8_static_check_gating hUnknownCat fsDb "").2.1 (by decide)

/-- Duplicate removal of a non-empty constant list keeps one copy. -/
theorem dedupKeepFirst_const (L : List String) (v : String)
    (hall : ∀ x ∈ L, x = v) (hne : L ≠ []) : dedupKeepFirst L = [v] := by
  cases L with
  | nil => cases hne rfl
  | cons x rest =>
      have hx := hall x (List.mem_cons_self x rest)
      subst hx
      simp only [dedupKeepFirst]
      have hfil : rest.filter (fun y => y ≠ x) = [] := by
        apply List.filter_eq_nil_iff.mpr
        intro y hy
        simp [hall y (List.mem_cons_of_mem x hy)]
      rw [hfil]
      simp [dedupKeepFirst]

/-- C9 (amended). A hypothesis citing exactly `src/db.ts:queryUser`
whose rationale quotes a fragment present (case-insensitively) in the
existing file `src/db.ts` gets `locations = ["src/db.ts"]` from
`runStaticChecks` — the qualifier after the colon is stripped before
lookup — and therefore any finding promoted by `hypothesisToFinding` has
`location.path = "src/db.ts"`. Evidence itself is NOT implied: the
quoted fragment only adds the location, and without a matching category
pattern `evidenceFound` stays false and no finding is promoted. -/
theorem C9_keyword_location (hyp : AttackHypothesis) (fs : String → Option String)
    (content fragment : String)
    (hloc : hyp.likely_locations = ["src/db.ts:queryUser"])
    (hfs : fs "src/db.ts" = some content)
    (hkw : fragment ∈ extractKeywords hyp.rationale)
    (hfound : strContains (jsToLowerCase content) (jsToLowerCase fragment) = true) :
    (runStaticChecks hyp fs).locations = ["src/db.ts"] ∧
    (∀ f, hypothesisToFinding hyp (runStaticChecks hyp fs) none = some f →
      f.location.path = "src/db.ts") := by
  have hsplit : locPath "src/db.ts:queryUser" = "src/db.ts" := by decide
  have hone : checkOneLocation (patternsFor hyp.category)
      (extractKeywords hyp.rationale) fs ([], []) "src/db.ts:queryUser" =
      (runKeywordChecks content "src/db.ts" (extractKeywords hyp.rationale)
        (runPatternChecks content "src/db.ts" (patternsFor hyp.category) ([], [])).1,
       (runPatternChecks content "src/db.ts" (patternsFor hyp.category) ([], [])).2) := by
    unfold checkOneLocation
    rw [hsplit]
    simp [hfs]
  have hloop : checkLocationsLoop (patternsFor hyp.category)
      (extractKeywords hyp.rationale) fs hyp.likely_locations ([], []) =
      checkOneLocation (patternsFor hyp.category) (extractKeywords hyp.rationale)
        fs ([], []) "src/db.ts:queryUser" := by
    rw [hloc]
    rfl
  have hlocs : (runStaticChecks hyp fs).locations = ["src/db.ts"] := by
    show dedupKeepFirst (checkLocationsLoop (patternsFor hyp.category)
      (extractKeywords hyp.rationale) fs hyp.likely_locations ([], [])).1 = _
    rw [hloop, hone]
    show dedupKeepFirst (runKeywordChecks content "src/db.ts"
      (extractKeywords hyp.rationale)
      (runPatternChecks content "src/db.ts" (patternsFor hyp.category) ([], [])).1) = _
    apply dedupKeepFirst_const
    · intro x hx
      rcases runKeywordChecks_mem content "src/db.ts" _ _ x hx with hin | hpath
      · rw [runPatternChecks_locs] at hin
        rcases List.mem_map.mp hin with ⟨_, _, rfl⟩
        rfl
      · exact hpath
    · intro hnil
      have hmem := runKeywordChecks_found content "src/db.ts"
        (extractKeywords hyp.rationale)
        (runPatternChecks content "src/db.ts" (patternsFor hyp.category) ([], [])).1
        fragment hkw hfound
      rw [hnil] at hmem
      cases hmem
  refine ⟨hlocs, ?_⟩
  intro f hf
  cases hev : (runStaticChecks hyp fs).evidenceFound with
  | false =>
      rw [hypothesisToFinding, if_pos hev] at hf
      cases hf
  | true =>
      rw [hypothesisToFinding, if_neg (by simp [hev])] at hf
      have hrec := Option.some.injEq _ _ ▸ hf
      have : f.location.path = ((runStaticChecks hyp fs).locations.headD
          (hyp.likely_locations.headD "unknown")) := by
        cases hf
        rfl
      rw [this, hlocs]
      rfl

/-- A hypothesis citing `src/db.ts:queryUser` with a quoted fragment and
an unknown category. -/
def hC9 : AttackHypothesis :=
  { id := "HYPO-009"
    title := "SQL injection in queryUser"
    category := "sql-injection"
    risk := Severity.high
    confidence := "high"
    rationale := "The helper `queryUser` concatenates its argument into a SQL string."
    evidence_to_collect := "A concatenated query in src/db.ts."
    safe_test_plan := "Run the unit test against http://localhost:3000."
    likely_locations := ["src/db.ts:queryUser"]
    references := [] }

/-- Counterexample for C9 as stated: the fragment `queryUser` is quoted
in the rationale and present verbatim in the existing file, yet
`evidenceFound` is false (the keyword path never writes a details line)
and no finding is promoted at all. -/
theorem C9_counterexample :
    extractKeywords hC9.rationale = ["queryUser"] ∧
    fsDb "src/db.ts" = some dbContent ∧
    strContains (jsToLowerCase dbContent) (jsToLowerCase "queryUser") = true ∧
    (runStaticChecks hC9 fsDb).evidenceFound = false ∧
    hypothesisToFinding hC9 (runStaticChecks hC9 fsDb) none = none :=
  ⟨rfl, rfl, rfl, rfl, rfl⟩

/-- Witness for C9 (amended): the concrete hypothesis above gets
`locations = ["src/db.ts"]`. -/
theorem C9_keyword_location_witness :
    (runStaticChecks hC9 fsDb).locations = ["src/db.ts"] :=
  (C9_keyword_location hC9 fsDb dbContent "queryUser" rfl rfl (by decide)
    (by decide)).1

/-- C10 (amended). `maskSecret` preserves length, yields all asterisks
for strings of length at most 8, and for longer strings keeps exactly
the first 4 and last 4 characters with asterisks in between;
`buildIssueBody` embeds the masked evidence for `"secret"` findings and
the raw evidence for every other category. Consequently the masked
evidence differs from the original whenever some middle character is not
already an asterisk — but a string whose middle is all asterisks masks
to itself, so the body may still contain the full evidence. -/
theorem C10_secret_masking (e : String) (f : Finding) (p : Persona) :
    (maskSecret e).length = e.length ∧
    (e.length ≤ 8 → ∀ c ∈ (maskSecret e).data, c = '*') ∧
    (8 < e.length →
      (maskSecret e).data.take 4 = e.data.take 4 ∧
      (maskSecret e).data.drop (e.length - 4) = e.data.drop (e.length - 4) ∧
      (∀ c ∈ ((maskSecret e).data.drop 4).take (e.length - 8), c = '*')) ∧
    (8 < e.length → (∃ c ∈ (e.data.drop 4).take (e.length - 8), c ≠ '*') →
      maskSecret e ≠ e) ∧
    (f.category = "secret" →
      buildIssueBody f (some p) =
        bodyBeforeEvidence f p ++ (maskSecret f.evidence ++ bodyAfterEvidence f p)) ∧
    (f.category ≠ "secret" →
      buildIssueBody f (some p) =
        bodyBeforeEvidence f p ++ (f.evidence ++ bodyAfterEvidence f p)) := by
  have hlen : e.length = e.data.length := rfl
  have hmask : ∀ h : ¬ e.length ≤ 8, (maskSecret e).data =
      e.data.take 4 ++ List.replicate (e.length - 8) '*' ++
        e.data.drop (e.length - 4) := by
    intro h
    simp only [maskSecret, if_neg h]
    rfl
  have hmid : 8 < e.length →
      ∀ c ∈ ((maskSecret e).data.drop 4).take (e.length - 8), c = '*' := by
    intro h8 c hc
    have hnot : ¬ e.length ≤ 8 := by omega
    have h4 : (e.data.take 4).length = 4 := by
      simp [List.length_take]
      omega
    have hR : (List.replicate (e.length - 8) '*').length = e.length - 8 := by
      simp
    rw [hmask hnot, List.append_assoc, List.drop_left' h4,
      List.take_left' hR] at hc
    exact List.eq_of_mem_replicate hc
  refine ⟨?_, ?_, ?_, ?_, ?_, ?_⟩
  · by_cases h : e.length ≤ 8
    · simp only [maskSecret, if_pos h]
      show (List.replicate e.length '*').length = e.length
      simp
    · rw [show (maskSecret e).length = (maskSecret e).data.length from rfl,
        hmask h]
      simp only [List.length_append, List.length_take, List.length_replicate,
        List.length_drop]
      omega
  · intro h c hc
    simp only [maskSecret, if_pos h] at hc
    exact List.eq_of_mem_replicate hc
  · intro h8
    have hnot : ¬ e.length ≤ 8 := by omega
    have h4 : (e.data.take 4).length = 4 := by
      simp [List.length_take]
      omega
    refine ⟨?_, ?_, hmid h8⟩
    · rw [hmask hnot, List.append_assoc, List.take_left' h4]
    · have hAR : (e.data.take 4 ++ List.replicate (e.length - 8) '*').length =
          e.length - 4 := by
        simp only [List.length_append, List.length_take, List.length_replicate]
        omega
      rw [hmask hnot, List.drop_left' hAR]
  · intro h8 hex heq
    rcases hex with ⟨c, hc, hne⟩
    apply hne
    have hdata : (maskSecret e).data = e.data := congrArg String.data heq
    rw [← hdata] at hc
    exact hmid h8 c hc
  · intro hcat
    simp only [buildIssueBody, Option.getD_some]
    rw [if_pos hcat]
  · intro hcat
    simp only [buildIssueBody, Option.getD_some]
    rw [if_neg hcat]

/-- A secret finding whose evidence's middle characters are already all
asterisks, so masking is the identity on it. -/
def fSelfMask : Finding :=
  { fMarkerW with category := "secret", evidence := "aaaa****bbbb" }

set_option maxRecDepth 8192 in
/-- Counterexample for C10 as stated: a secret finding with evidence
longer than 8 characters whose full evidence nevertheless occurs
verbatim in the issue body, because its middle is already asterisks and
`maskSecret` returns it unchanged. -/
theorem C10_counterexample :
    fSelfMask.category = "secret" ∧
    fSelfMask.evidence.length = 12 ∧
    maskSecret fSelfMask.evidence = fSelfMask.evidence ∧
    strContains (buildIssueBody fSelfMask (some defaultPersona))
      fSelfMask.evidence = true :=
  ⟨rfl, rfl, rfl, by decide⟩

/-- Witness for C10 (amended): the body of the concrete secret finding
embeds exactly the masked evidence between the two template halves. -/
theorem C10_secret_masking_witness :
    buildIssueBody fSelfMask (some defaultPersona) =
      bodyBeforeEvidence fSelfMask defaultPersona ++
        (maskSecret fSelfMask.evidence ++
          bodyAfterEvidence fSelfMask defaultPersona) :=
  (C10_secret_masking fSelfMask.evidence fSelfMask defaultPersona).2.2.2.2.1 rfl

/-- A fixed tracker for concrete instantiations. -/
def trackerW : Finding → Nat × String :=
  fun _ => (1, "https://github.com/o/r/issues/1")

/-- Five new findings of mixed severity for the rate-cap witness. -/
def dFive : DedupResult :=
  { newFindings :=
      [{ fDedupW with id := "1", severity := Severity.low },
       { fDedupW with id := "2", severity := Severity.critical },
       { fDedupW with id := "3", severity := Severity.high },
       { fDedupW with id := "4", severity := Severity.critical },
       { fDedupW with id := "5", severity := Severity.medium }]
    existingFindings := []
    resolvedIssueNumbers := []
    totalRaw := 5 }

/-- Witness for C5: with `maxPerRun = 2` and five new findings, at most
two created results appear. -/
theorem C5_rate_cap_witness :
    ((processIssues trackerW dFive { maxPerRun := 2, autoClose := true } "o" "r").filter
        (fun r => decide (r.action = IssueAction.created))).length ≤ 2 :=
  (C5_rate_cap trackerW dFive { maxPerRun := 2, autoClose := true } "o" "r").2.1

/-- Witness for C4: concrete fields differing only in case and
surrounding whitespace hash identically. -/
theorem C4_fingerprint_determinism_witness :
    generateFingerprint ["NPM-AUDIT ", " Dependency", "PACKAGE.JSON"] =
      generateFingerprint ["npm-audit", "dependency", "package.json"] :=
  (C4_fingerprint_determinism ["npm-audit", "dependency", "package.json"]
    ["NPM-AUDIT ", " Dependency", "PACKAGE.JSON"] (by decide)).2.1

end RedTeam
